import Mathlib

/-! Shallow embedding of the color quantization engine of the
toothpick-art-planner repository: the file
src/toothpick-react/src/utils/imageProcessor.ts and the engine file
src/unnamed/part_001 (which extends it with quantizeImportantColors).

Modelling conventions:
- JS numbers that only ever hold integers (channel values, histogram counts,
  squared distances, cumulative sums) are embedded as naturals; all these
  values stay far below 2^53, where IEEE doubles are exact.
- Math.random() is embedded as an explicit stream rng : Nat -> Rat of draws,
  consumed in call order; theorems that depend on randomness assume every
  draw lies in [0, 1), the documented range of Math.random.
- Math.round (p / q) on nonnegative integers p, q is (2*p + q) / (2*q).
- the box-selection heuristic compares s1 * log2 (c1+1) > s2 * log2 (c2+1);
  for naturals this holds iff (c1+1)^s1 > (c2+1)^s2, which is how the
  comparison is embedded (exactly, instead of through floating-point log2).
- findClosestCentroid compares square roots of integer squared distances;
  Math.sqrt is monotone and injective on the distances that occur (at most
  3*255^2), so the embedding compares the squared distances directly.
  Likewise the k-means++ weight (Math.min of sqrt distances) squared is
  embedded as the exact minimum of the squared distances.
-/

set_option maxRecDepth 4000

namespace TP

abbrev Color := ℕ × ℕ × ℕ

/-- Squared Euclidean distance in RGB space, exactly as the JS expressions
`(a[0]-b[0])**2 + (a[1]-b[1])**2 + (a[2]-b[2])**2`. -/
def sqDist (a b : Color) : ℕ :=
  ((a.1 : ℤ) - b.1).natAbs ^ 2 + ((a.2.1 : ℤ) - b.2.1).natAbs ^ 2 +
    ((a.2.2 : ℤ) - b.2.2).natAbs ^ 2

/-- `Math.round (p / q)` for nonnegative integers with `q > 0`. -/
def jsRound (p q : ℕ) : ℕ := (2 * p + q) / (2 * q)

/-- The argmin loop pattern of the source (`best = 0`, `bestD = Infinity`,
update on strict improvement, so the first index attaining the minimum wins).
The state tracks index, element and value of the best candidate so far;
`none` is the initial `bestD = Infinity` state. -/
def argminGo {α : Type} (f : α → ℕ) : List α → ℕ → Option (ℕ × α × ℕ) → Option (ℕ × α × ℕ)
  | [], _, best => best
  | x :: rest, i, none => argminGo f rest (i + 1) (some (i, x, f x))
  | x :: rest, i, some (j, y, v) =>
    if f x < v then argminGo f rest (i + 1) (some (i, x, f x))
    else argminGo f rest (i + 1) (some (j, y, v))

def argminIdx {α : Type} (f : α → ℕ) (l : List α) : ℕ :=
  match argminGo f l 0 none with
  | none => 0
  | some (i, _, _) => i

/-- Indices visited by a loop `for (let i = 0; i < len; i += step)`. -/
def sampleIdxs (len step : ℕ) : List ℕ := List.range' 0 ((len + step - 1) / step) step

/-- `(r >> 3) << 10 | (g >> 3) << 5 | (b >> 3)` for 8-bit channels. -/
def histIdx (r g b : ℕ) : ℕ := r / 8 * 1024 + g / 8 * 32 + b / 8

/-- Number of samples of `data` (with the given stride) that fall into
histogram bin `idx`; out-of-range reads are 0, as JS `undefined >> 3` is 0. -/
def histCount (data : List ℕ) (step idx : ℕ) : ℕ :=
  ((sampleIdxs data.length step).filter fun i =>
    decide (histIdx (data.getD i 0) (data.getD (i + 1) 0) (data.getD (i + 2) 0) = idx)).length

structure Bin where
  r : ℕ
  g : ℕ
  b : ℕ
  count : ℕ
  deriving DecidableEq, Inhabited

/-- Sampling stride: every 2nd pixel (8 bytes) above 2,000,000 RGBA bytes. -/
def stepOf (len : ℕ) : ℕ := if 2000000 < len then 8 else 4

/-- The 8-bit bin-center color reconstructed from a reduced bin id:
`(ri << 3) + 4` per channel. -/
def binColorOf (idx : ℕ) : Color :=
  (idx / 1024 * 8 + 4, idx / 32 % 32 * 8 + 4, idx % 32 * 8 + 4)

/-- The bin materialized for a bin id: `none` when its count is zero,
otherwise the center color of the bin with the count. -/
def binsF (data : List ℕ) (idx : ℕ) : Option Bin :=
  if histCount data (stepOf data.length) idx = 0 then none
  else some ⟨idx / 1024 * 8 + 4, idx / 32 % 32 * 8 + 4, idx % 32 * 8 + 4,
    histCount data (stepOf data.length) idx⟩

/-- The triple loop over `ri, gi, bi` (equivalently over bin ids in increasing
order) collecting the non-empty bins with their center colors. -/
def buildBins (data : List ℕ) : List Bin :=
  (List.range 32768).filterMap (binsF data)

structure Box where
  rMin : ℕ
  rMax : ℕ
  gMin : ℕ
  gMax : ℕ
  bMin : ℕ
  bMax : ℕ
  bins : List Bin
  count : ℕ
  deriving DecidableEq, Inhabited

def sumCounts (items : List Bin) : ℕ := items.foldl (fun a it => a + it.count) 0

/-- `makeBox`: one pass computing per-channel min/max (from 255/0) and the
total population. In the algorithm it is only applied to non-empty lists,
where the 255/0 seeds are overwritten by actual bounds. -/
def makeBox (items : List Bin) : Box where
  rMin := items.foldl (fun m it => min m it.r) 255
  rMax := items.foldl (fun m it => max m it.r) 0
  gMin := items.foldl (fun m it => min m it.g) 255
  gMax := items.foldl (fun m it => max m it.g) 0
  bMin := items.foldl (fun m it => min m it.b) 255
  bMax := items.foldl (fun m it => max m it.b) 0
  bins := items
  count := sumCounts items

inductive Channel
  | r
  | g
  | b
  deriving DecidableEq, Inhabited

def channelVal : Channel → Bin → ℕ
  | .r, it => it.r
  | .g, it => it.g
  | .b, it => it.b

def chRange : Channel → Box → ℕ
  | .r, bx => bx.rMax - bx.rMin
  | .g, bx => bx.gMax - bx.gMin
  | .b, bx => bx.bMax - bx.bMin

/-- `let channel = 'r'; if (gRange >= rRange && gRange >= bRange) channel = 'g';
else if (bRange >= rRange && bRange >= gRange) channel = 'b';` -/
def splitChannel (box : Box) : Channel :=
  let rR := box.rMax - box.rMin
  let gR := box.gMax - box.gMin
  let bR := box.bMax - box.bMin
  if rR ≤ gR ∧ bR ≤ gR then .g
  else if rR ≤ bR ∧ gR ≤ bR then .b
  else .r

/-- The cut-search loop: first index at which the cumulative population
reaches half the total (`acc >= total / 2`, exactly `2 * acc >= total`);
`cut` stays 0 when the loop never breaks. -/
def findCutGo (total : ℕ) : List Bin → ℕ → ℕ → ℕ
  | [], _, _ => 0
  | it :: rest, acc, i =>
    let acc' := acc + it.count
    if total ≤ 2 * acc' then i else findCutGo total rest acc' (i + 1)

def findCut (l : List Bin) (total : ℕ) : ℕ := findCutGo total l 0 0

/-- The member bins sorted by the chosen channel. JS `Array.sort` with a
subtraction comparator is a stable ascending sort; a stable sort's output is
uniquely determined by the key order, and `List.insertionSort` is the stable
sort that the kernel can evaluate (Mathlib's stability lemmas are about it). -/
def sortedBins (box : Box) : List Bin :=
  box.bins.insertionSort fun a b =>
    channelVal (splitChannel box) a ≤ channelVal (splitChannel box) b

/-- The cut index of a box: where the cumulative population of the sorted
member bins first reaches half the box total. -/
def cutOf (box : Box) : ℕ := findCut (sortedBins box) box.count

/-- `splitBox`: sort member bins by the chosen channel, cut at the weighted
median, reject cuts that would leave an empty side (`cut <= 0` or
`cut >= sorted.length - 1`). -/
def splitBox (box : Box) : Option (Box × Box) :=
  if cutOf box = 0 ∨ (sortedBins box).length - 1 ≤ cutOf box then none
  else some (makeBox ((sortedBins box).take (cutOf box + 1)),
    makeBox ((sortedBins box).drop (cutOf box + 1)))

def boxRangeSum (bx : Box) : ℕ :=
  (bx.rMax - bx.rMin) + (bx.gMax - bx.gMin) + (bx.bMax - bx.bMin)

/-- Exact comparison `s1 * log2 (c1+1) > s2 * log2 (c2+1)` over naturals
(equivalent because `log2` is strictly monotone on `[1, infinity)`). -/
def scoreGT (s1 c1 s2 c2 : ℕ) : Prop := (c2 + 1) ^ s2 < (c1 + 1) ^ s1

instance (s1 c1 s2 c2 : ℕ) : Decidable (scoreGT s1 c1 s2 c2) := by
  unfold scoreGT
  infer_instance

/-- The box-selection scan: `bestScore = -1`, take a box on
`score > bestScore && box.bins.length > 1`. In the `none` state
(`bestScore = -1`) every score wins the comparison, so only the
`bins.length > 1` test remains. -/
def chooseBestGo : List Box → ℕ → Option (ℕ × ℕ × ℕ) → Option (ℕ × ℕ × ℕ)
  | [], _, best => best
  | bx :: rest, i, none =>
    if 1 < bx.bins.length then chooseBestGo rest (i + 1) (some (i, boxRangeSum bx, bx.count))
    else chooseBestGo rest (i + 1) none
  | bx :: rest, i, some (j, bs, bc) =>
    if scoreGT (boxRangeSum bx) bx.count bs bc ∧ 1 < bx.bins.length then
      chooseBestGo rest (i + 1) (some (i, boxRangeSum bx, bx.count))
    else chooseBestGo rest (i + 1) (some (j, bs, bc))

def chooseBest (boxes : List Box) : Option ℕ :=
  (chooseBestGo boxes 0 none).map fun t => t.1

/-- The priority-split worklist loop `while (boxes.length < k)`. Each
iteration either stops (no eligible box; or the chosen box cannot split, in
which case it is spliced out and pushed back at the end) or replaces the
chosen box by its two halves, growing the list by one; so `k` fuel is enough
to run the loop to its actual termination. -/
def splitLoopGo : ℕ → ℕ → List Box → List Box
  | 0, _, boxes => boxes
  | fuel + 1, k, boxes =>
    if boxes.length < k then
      match chooseBest boxes with
      | none => boxes
      | some i =>
        match splitBox (boxes.getD i default) with
        | none => boxes.eraseIdx i ++ [boxes.getD i default]
        | some (l, r) => splitLoopGo fuel k (boxes.eraseIdx i ++ [l, r])
    else boxes

/-- Population-weighted mean color of a box, channels rounded to nearest. -/
def boxCentroid (bx : Box) : Color :=
  let rSum := bx.bins.foldl (fun a it => a + it.r * it.count) 0
  let gSum := bx.bins.foldl (fun a it => a + it.g * it.count) 0
  let bSum := bx.bins.foldl (fun a it => a + it.b * it.count) 0
  let cSum := sumCounts bx.bins
  if cSum = 0 then (0, 0, 0)
  else (jsRound rSum cSum, jsRound gSum cSum, jsRound bSum cSum)

/-- `minD = Infinity; for (const c of cents) ...` — minimum of the squared
distances to the current centroids. In the algorithm `cents` is never empty
at a use site; the `[]` case is junk. -/
def minDistSq (c : Color) (cents : List Color) : ℕ :=
  match cents with
  | [] => 0
  | d :: rest => rest.foldl (fun m e => min m (sqDist c e)) (sqDist c d)

/-- Weighted first-centroid pick: walk bins accumulating population until
`accum >= r`, pushing that bin's color; pushes nothing if `r` exceeds the
total weight (impossible for a draw in `[0,1)`). -/
def firstPickGo (r : ℚ) : List Bin → ℕ → List Color
  | [], _ => []
  | b :: rest, acc =>
    let acc' := acc + b.count
    if r ≤ (acc' : ℚ) then [(b.r, b.g, b.b)] else firstPickGo r rest acc'

def firstPick (bins : List Bin) (r : ℚ) : List Color := firstPickGo r bins 0

/-- `let pick = 0; for (...) { a2 += dists[i]; if (a2 >= t) { pick = i; break } }` -/
def kppPickIdx (t : ℚ) : List ℕ → ℕ → ℕ → ℕ
  | [], _, _ => 0
  | d :: rest, acc, i =>
    let acc' := acc + d
    if t ≤ (acc' : ℚ) then i else kppPickIdx t rest acc' (i + 1)

/-- `while (cents.length < targetK)`: one distance-weighted roulette pick per
iteration, each consuming one random draw and pushing exactly one color. -/
def kppLoop (bins : List Bin) (targetK : ℕ) (rng : ℕ → ℚ) : ℕ → ℕ → List Color → List Color
  | 0, _, cents => cents
  | fuel + 1, c, cents =>
    if cents.length < targetK then
      let dists := bins.map fun b => minDistSq (b.r, b.g, b.b) cents * b.count
      let sumD := dists.sum
      let sumD' := if sumD = 0 then 1 else sumD
      let t := rng c * (sumD' : ℚ)
      let pick := kppPickIdx t dists 0 0
      let bp := bins.getD pick default
      kppLoop bins targetK rng fuel (c + 1) (cents ++ [(bp.r, bp.g, bp.b)])
    else cents

def binAssign (cents : List Color) (b : Bin) : ℕ := argminIdx (sqDist (b.r, b.g, b.b)) cents

/-- One weighted Lloyd iteration over bins: per-cluster weighted channel sums,
rounded means, centroids with zero assigned weight left unchanged. -/
def lloydStep (bins : List Bin) (cents : List Color) : List Color :=
  (List.range cents.length).map fun i =>
    let assigned := bins.filter fun b => decide (binAssign cents b = i)
    let w := sumCounts assigned
    if w = 0 then cents.getD i (0, 0, 0)
    else
      (jsRound (assigned.foldl (fun a it => a + it.r * it.count) 0) w,
       jsRound (assigned.foldl (fun a it => a + it.g * it.count) 0) w,
       jsRound (assigned.foldl (fun a it => a + it.b * it.count) 0) w)

/-- The under-produced-palette refinement: weighted k-means++ seeding over the
original bin set followed by 3 weighted Lloyd iterations. Draw 0 seeds the
first centroid; draws 1, 2, ... feed the roulette picks. -/
def refinePalette (bins : List Bin) (k : ℕ) (rng : ℕ → ℚ) : List Color :=
  let targetK := min k (max 2 bins.length)
  let totalW := sumCounts bins
  let cents0 := firstPick bins (rng 0 * (totalW : ℚ))
  let cents := kppLoop bins targetK rng targetK 1 cents0
  lloydStep bins (lloydStep bins (lloydStep bins cents))

def nearestIdx (palette : List Color) (c : Color) : ℕ :=
  argminIdx (fun p => sqDist p c) palette

/-- The 32768-entry nearest-palette lookup table, as the function from bin id
to the index of the palette entry closest to the bin-center color. -/
def nearestLUT (palette : List Color) (idx : ℕ) : ℕ := nearestIdx palette (binColorOf idx)

/-- The palette color written for the pixel starting at byte `i`: look the
pixel's reduced bin up in the nearest-palette table. -/
def remapColor (data : List ℕ) (palette : List Color) (i : ℕ) : Color :=
  palette.getD
    (nearestLUT palette
      (histIdx (data.getD i 0) (data.getD (i + 1) 0) (data.getD (i + 2) 0))) (0, 0, 0)

/-- The remap pass: every 4th byte starts a pixel; each pixel is replaced by
the palette entry its reduced bin maps to, with alpha 255. (For well-formed
data of length width*height*4 this is exactly the JS output buffer.) -/
def remapData (data : List ℕ) (palette : List Color) : List ℕ :=
  (sampleIdxs data.length 4).flatMap fun i =>
    [(remapColor data palette i).1, (remapColor data palette i).2.1,
     (remapColor data palette i).2.2, 255]

/-- The box list produced by the priority-split loop, starting from the single
box holding every bin. -/
def boxesOf (data : List ℕ) (k : ℕ) : List Box :=
  splitLoopGo k k [makeBox (buildBins data)]

/-- The palette of box centroids (before any refinement). -/
def palette0Of (data : List ℕ) (k : ℕ) : List Color :=
  (boxesOf data k).map boxCentroid

/-- The palette the fast quantizer ends up with: box centroids, replaced by the
weighted k-means refinement when the boxes under-produced. -/
def palFast (data : List ℕ) (k : ℕ) (rng : ℕ → ℚ) : List Color :=
  if (palette0Of data k).length < k then refinePalette (buildBins data) k rng
  else palette0Of data k

/-- `quantizeImportantColors` (the fast / MMCQ-like quantizer). With an empty
bin set it returns the degenerate black palette and the untouched zero-filled
output buffer. -/
def quantizeImportantColors (data : List ℕ) (width height k : ℕ) (rng : ℕ → ℚ) :
    List Color × List ℕ :=
  if buildBins data = [] then ([(0, 0, 0)], List.replicate (width * height * 4) 0)
  else (palFast data k rng, remapData data (palFast data k rng))

def extractPixels (data : List ℕ) : List Color :=
  (sampleIdxs data.length 4).map fun i =>
    (data.getD i 0, data.getD (i + 1) 0, data.getD (i + 2) 0)

/-- `random -= distances[j]; if (random <= 0) { push; break }` — the first
index whose cumulative weight reaches `t`, if any. -/
def roulettePickGo (t : ℚ) : List ℕ → ℕ → ℕ → Option ℕ
  | [], _, _ => none
  | d :: rest, acc, j =>
    let acc' := acc + d
    if t ≤ (acc' : ℚ) then some j else roulettePickGo t rest acc' (j + 1)

/-- Rounds `i = 1 .. k-1` of k-means++ seeding: one draw per round; a round
whose roulette never fires pushes nothing (impossible for draws in [0,1)). -/
def initGo (pixels : List Color) (rng : ℕ → ℚ) : ℕ → ℕ → List Color → List Color × ℕ
  | 0, c, cents => (cents, c)
  | n + 1, c, cents =>
    let dists := pixels.map fun p => minDistSq p cents
    let t := rng c * ((dists.sum : ℕ) : ℚ)
    match roulettePickGo t dists 0 0 with
    | some j => initGo pixels rng n (c + 1) (cents ++ [pixels.getD j (0, 0, 0)])
    | none => initGo pixels rng n (c + 1) cents

/-- k-means++ initialization; draw 0 picks the first centroid uniformly. -/
def initializeCentroidsKMeansPlusPlus (pixels : List Color) (k : ℕ) (rng : ℕ → ℚ) :
    List Color × ℕ :=
  initGo pixels rng (k - 1) 1 [pixels.getD (Nat.floor (rng 0 * (pixels.length : ℚ))) (0, 0, 0)]

def findClosestCentroid (p : Color) (cents : List Color) : ℕ := argminIdx (sqDist p) cents

/-- The update step: cluster `i` gets the rounded mean of its pixels, an empty
cluster is reseeded with a uniformly random pixel (consuming one draw, in
index order). Returns the new length-`k` centroid list and the draw counter. -/
def updStep (pixels : List Color) (assigns : List ℕ) (rng : ℕ → ℚ)
    (st : List Color × ℕ) (i : ℕ) : List Color × ℕ :=
  let assigned := ((pixels.zip assigns).filter fun pa => decide (pa.2 = i)).map fun pa => pa.1
  if assigned.length = 0 then
    (st.1 ++ [pixels.getD (Nat.floor (rng st.2 * (pixels.length : ℚ))) (0, 0, 0)], st.2 + 1)
  else
    (st.1 ++ [(jsRound (assigned.foldl (fun a q => a + q.1) 0) assigned.length,
               jsRound (assigned.foldl (fun a q => a + q.2.1) 0) assigned.length,
               jsRound (assigned.foldl (fun a q => a + q.2.2) 0) assigned.length)], st.2)

def updateCentroids (pixels : List Color) (assigns : List ℕ) (k : ℕ) (rng : ℕ → ℚ) (c : ℕ) :
    List Color × ℕ :=
  (List.range k).foldl (updStep pixels assigns rng) ([], c)

/-- `while (changed && iteration < maxIterations) { assign; update; }`:
the update of an iteration runs even when that iteration's assignment made no
change (the loop exit is only checked at the top). Writing the first `k`
entries of `centroids` from the length-`k` update result is
`upd ++ cents.drop k`. -/
def lloydGo (pixels : List Color) (k : ℕ) (rng : ℕ → ℚ) :
    ℕ → List ℕ → List Color → ℕ → List ℕ × List Color × ℕ
  | 0, assigns, cents, c => (assigns, cents, c)
  | fuel + 1, assigns, cents, c =>
    let newAssigns := pixels.map fun p => findClosestCentroid p cents
    let st := updateCentroids pixels newAssigns k rng c
    let cents' := st.1 ++ cents.drop k
    if newAssigns = assigns then (newAssigns, cents', st.2)
    else lloydGo pixels k rng fuel newAssigns cents' st.2

/-- The state (final assignments, final centroids, draw counter) after the
Lloyd loop of `kMeansQuantize`: seeding, then at most `maxIterations`
assignment/update rounds over an assignment array initialized to zeros. -/
def lloydResult (pixels : List Color) (k maxIterations : ℕ) (rng : ℕ → ℚ) :
    List ℕ × List Color × ℕ :=
  lloydGo pixels k rng maxIterations (List.replicate pixels.length 0)
    (initializeCentroidsKMeansPlusPlus pixels k rng).1
    (initializeCentroidsKMeansPlusPlus pixels k rng).2

/-- The output buffer of `kMeansQuantize`: pixel `i` becomes the centroid of
its cluster with alpha 255. -/
def kMeansOut (cents : List Color) (assigns : List ℕ) (n : ℕ) : List ℕ :=
  (List.range n).flatMap fun i =>
    [(cents.getD (assigns.getD i 0) (0, 0, 0)).1,
     (cents.getD (assigns.getD i 0) (0, 0, 0)).2.1,
     (cents.getD (assigns.getD i 0) (0, 0, 0)).2.2, 255]

/-- `kMeansQuantize` (the exact per-pixel quantizer). -/
def kMeansQuantize (data : List ℕ) (width height k maxIterations : ℕ) (rng : ℕ → ℚ) :
    List Color × List ℕ :=
  ((lloydResult (extractPixels data) k maxIterations rng).2.1,
   kMeansOut (lloydResult (extractPixels data) k maxIterations rng).2.1
     (lloydResult (extractPixels data) k maxIterations rng).1
     (extractPixels data).length)

/-! Helper lemmas: arithmetic. -/

lemma jsRound_mul_self (a n : ℕ) (h : 0 < n) : jsRound (a * n) n = a := by
  unfold jsRound
  rw [show 2 * (a * n) + n = 2 * n * a + n by ring, Nat.mul_add_div (by omega),
    Nat.div_eq_of_lt (by omega), Nat.add_zero]

lemma jsRound_one (a : ℕ) : jsRound a 1 = a := by
  have := jsRound_mul_self a 1 (by omega)
  simpa using this

lemma sqDist_self (c : Color) : sqDist c c = 0 := by
  simp [sqDist]

lemma sqDist_eq_zero {a b : Color} (h : sqDist a b = 0) : a = b := by
  unfold sqDist at h
  have p1 : ((a.1 : ℤ) - b.1).natAbs ^ 2 = 0 := by omega
  have p2 : ((a.2.1 : ℤ) - b.2.1).natAbs ^ 2 = 0 := by omega
  have p3 : ((a.2.2 : ℤ) - b.2.2).natAbs ^ 2 = 0 := by omega
  have h1 : ((a.1 : ℤ) - b.1).natAbs = 0 := pow_eq_zero_iff (n := 2) (by omega) |>.1 p1
  have h2 : ((a.2.1 : ℤ) - b.2.1).natAbs = 0 := pow_eq_zero_iff (n := 2) (by omega) |>.1 p2
  have h3 : ((a.2.2 : ℤ) - b.2.2).natAbs = 0 := pow_eq_zero_iff (n := 2) (by omega) |>.1 p3
  have e1 : a.1 = b.1 := by omega
  have e2 : a.2.1 = b.2.1 := by omega
  have e3 : a.2.2 = b.2.2 := by omega
  exact Prod.ext e1 (Prod.ext e2 e3)

lemma histIdx_lt {r g b : ℕ} (hr : r ≤ 255) (hg : g ≤ 255) (hb : b ≤ 255) :
    histIdx r g b < 32768 := by
  unfold histIdx; omega

lemma binColorOf_histIdx {r g b : ℕ} (hr : r ≤ 255) (hg : g ≤ 255) (hb : b ≤ 255) :
    binColorOf (histIdx r g b) = (r / 8 * 8 + 4, g / 8 * 8 + 4, b / 8 * 8 + 4) := by
  unfold binColorOf histIdx
  refine Prod.ext ?_ (Prod.ext ?_ ?_) <;> simp <;> omega

lemma getD_le_of_all_le {data : List ℕ} (hd : ∀ x ∈ data, x ≤ 255) (i : ℕ) :
    data.getD i 0 ≤ 255 := by
  by_cases h : i < data.length
  · rw [List.getD_eq_getElem data 0 h]
    exact hd _ (List.getElem_mem h)
  · rw [List.getD_eq_default data 0 (by omega)]
    omega

lemma foldl_count_eq (l : List Bin) : ∀ z : ℕ,
    l.foldl (fun a it => a + it.count) z = z + (l.map Bin.count).sum := by
  induction l with
  | nil => intro z; simp
  | cons b m ih =>
    intro z
    rw [List.foldl_cons, List.map_cons, List.sum_cons, ih]
    omega

lemma sumCounts_eq (items : List Bin) : sumCounts items = (items.map Bin.count).sum := by
  unfold sumCounts
  rw [foldl_count_eq]
  omega

/-! Helper lemmas: the argmin loop. -/

lemma argminGo_ne_none {α : Type} (f : α → ℕ) :
    ∀ (l : List α) (i j : ℕ) (y : α) (v : ℕ),
      argminGo f l i (some (j, y, v)) ≠ none := by
  intro l
  induction l with
  | nil => intro i j y v h; exact absurd h (by simp [argminGo])
  | cons a rest ih =>
    intro i j y v
    show (if f a < v then _ else _) ≠ none
    by_cases hb : f a < v
    · rw [if_pos hb]; exact ih _ _ _ _
    · rw [if_neg hb]; exact ih _ _ _ _

lemma argminGo_lt {α : Type} (f : α → ℕ) :
    ∀ (l : List α) (i : ℕ) (best : Option (ℕ × α × ℕ)),
      (∀ j x v, best = some (j, x, v) → j < i) →
      ∀ j x v, argminGo f l i best = some (j, x, v) → j < i + l.length := by
  intro l
  induction l with
  | nil =>
    intro i best hb j x v h
    simp only [argminGo] at h
    have := hb j x v h
    omega
  | cons a rest ih =>
    intro i best hb j x v h
    cases best with
    | none =>
      simp only [argminGo] at h
      have := ih (i + 1) (some (i, a, f a))
        (by intro j0 x0 v0 he; simp only [Option.some.injEq, Prod.mk.injEq] at he; omega)
        j x v h
      simpa [Nat.add_comm, Nat.add_assoc, Nat.add_left_comm] using this
    | some t =>
      obtain ⟨j1, y1, v1⟩ := t
      rw [show argminGo f (a :: rest) i (some (j1, y1, v1)) =
        if f a < v1 then argminGo f rest (i + 1) (some (i, a, f a))
        else argminGo f rest (i + 1) (some (j1, y1, v1)) from rfl] at h
      by_cases hfa : f a < v1
      · rw [if_pos hfa] at h
        have := ih (i + 1) (some (i, a, f a))
          (by intro j0 x0 v0 he; simp only [Option.some.injEq, Prod.mk.injEq] at he; omega)
          j x v h
        simpa [Nat.add_comm, Nat.add_assoc, Nat.add_left_comm] using this
      · rw [if_neg hfa] at h
        have := ih (i + 1) (some (j1, y1, v1))
          (by intro j0 x0 v0 he; simp only [Option.some.injEq, Prod.mk.injEq] at he
              have := hb j1 y1 v1 rfl
              omega) j x v h
        simpa [Nat.add_comm, Nat.add_assoc, Nat.add_left_comm] using this

lemma argminIdx_lt {α : Type} (f : α → ℕ) (l : List α) (hl : l ≠ []) :
    argminIdx f l < l.length := by
  unfold argminIdx
  cases l with
  | nil => exact absurd rfl hl
  | cons a rest =>
    rcases hgo : argminGo f (a :: rest) 0 none with _ | ⟨j, x, v⟩
    · rw [show argminGo f (a :: rest) 0 none = argminGo f rest 1 (some (0, a, f a)) from rfl]
        at hgo
      exact absurd hgo (argminGo_ne_none f rest 1 0 a (f a))
    · have := argminGo_lt f (a :: rest) 0 none (by intro j0 x0 v0 h; simp at h) j x v hgo
      simpa using this

lemma argminGo_le {α : Type} (f : α → ℕ) :
    ∀ (l : List α) (i : ℕ) (best : Option (ℕ × α × ℕ)) (j : ℕ) (x : α) (v : ℕ),
      argminGo f l i best = some (j, x, v) →
        (∀ y ∈ l, v ≤ f y) ∧ (∀ j0 x0 v0, best = some (j0, x0, v0) → v ≤ v0) := by
  intro l
  induction l with
  | nil =>
    intro i best j x v h
    simp only [argminGo] at h
    constructor
    · intro y hy; simp at hy
    · intro j0 x0 v0 hb
      rw [hb] at h
      simp only [Option.some.injEq, Prod.mk.injEq] at h
      omega
  | cons a rest ih =>
    intro i best j x v h
    have step : ∀ (hs : argminGo f rest (i + 1) (some (i, a, f a)) = some (j, x, v)),
        (∀ y ∈ a :: rest, v ≤ f y) := by
      intro hs
      obtain ⟨h1, h2⟩ := ih (i + 1) (some (i, a, f a)) j x v hs
      intro y hy
      rcases List.mem_cons.1 hy with rfl | hy2
      · exact h2 i y (f y) rfl
      · exact h1 y hy2
    cases best with
    | none =>
      simp only [argminGo] at h
      exact ⟨step h, by intro j0 x0 v0 hb; exact absurd hb (by simp)⟩
    | some t =>
      obtain ⟨j1, y1, v1⟩ := t
      rw [show argminGo f (a :: rest) i (some (j1, y1, v1)) =
        if f a < v1 then argminGo f rest (i + 1) (some (i, a, f a))
        else argminGo f rest (i + 1) (some (j1, y1, v1)) from rfl] at h
      by_cases hfa : f a < v1
      · rw [if_pos hfa] at h
        refine ⟨step h, ?_⟩
        intro j0 x0 v0 hb
        simp only [Option.some.injEq, Prod.mk.injEq] at hb
        obtain ⟨h1, h2⟩ := ih (i + 1) (some (i, a, f a)) j x v h
        have := h2 i a (f a) rfl
        omega
      · rw [if_neg hfa] at h
        obtain ⟨h1, h2⟩ := ih (i + 1) (some (j1, y1, v1)) j x v h
        have hvv1 := h2 j1 y1 v1 rfl
        refine ⟨?_, ?_⟩
        · intro y hy
          rcases List.mem_cons.1 hy with rfl | hy2
          · omega
          · exact h1 y hy2
        · intro j0 x0 v0 hb
          simp only [Option.some.injEq, Prod.mk.injEq] at hb
          omega

lemma argminGo_getD {α : Type} (f : α → ℕ) (L : List α) (d : α) :
    ∀ (n i : ℕ) (best : Option (ℕ × α × ℕ)),
      L.length - i = n →
      (∀ j x v, best = some (j, x, v) → j < L.length ∧ L.getD j d = x ∧ f x = v) →
      ∀ j x v, argminGo f (L.drop i) i best = some (j, x, v) →
        j < L.length ∧ L.getD j d = x ∧ f x = v := by
  intro n
  induction n with
  | zero =>
    intro i best hn hbest j x v h
    rw [List.drop_eq_nil_of_le (by omega)] at h
    simp only [argminGo] at h
    exact hbest j x v h
  | succ m ih =>
    intro i best hn hbest j x v h
    have hi : i < L.length := by omega
    rw [List.drop_eq_getElem_cons hi] at h
    have hnew : ∀ j0 x0 v0, (some (i, L[i], f L[i]) : Option (ℕ × α × ℕ)) = some (j0, x0, v0) →
        j0 < L.length ∧ L.getD j0 d = x0 ∧ f x0 = v0 := by
      intro j0 x0 v0 he
      simp only [Option.some.injEq, Prod.mk.injEq] at he
      obtain ⟨e1, e3, e4⟩ := he
      subst e1; subst e3
      exact ⟨hi, List.getD_eq_getElem L d hi, e4⟩
    cases best with
    | none =>
      simp only [argminGo] at h
      exact ih (i + 1) (some (i, L[i], f L[i])) (by omega) hnew j x v h
    | some t =>
      obtain ⟨j1, y1, v1⟩ := t
      rw [show argminGo f (L[i] :: L.drop (i + 1)) i (some (j1, y1, v1)) =
        if f L[i] < v1 then argminGo f (L.drop (i + 1)) (i + 1) (some (i, L[i], f L[i]))
        else argminGo f (L.drop (i + 1)) (i + 1) (some (j1, y1, v1)) from rfl] at h
      by_cases hfa : f L[i] < v1
      · rw [if_pos hfa] at h
        exact ih (i + 1) (some (i, L[i], f L[i])) (by omega) hnew j x v h
      · rw [if_neg hfa] at h
        exact ih (i + 1) (some (j1, y1, v1)) (by omega) hbest j x v h

lemma argminIdx_spec {α : Type} (f : α → ℕ) (l : List α) (d : α) (hl : l ≠ []) :
    argminIdx f l < l.length ∧ ∀ y ∈ l, f (l.getD (argminIdx f l) d) ≤ f y := by
  have hlt := argminIdx_lt f l hl
  refine ⟨hlt, ?_⟩
  unfold argminIdx at hlt ⊢
  rcases hgo : argminGo f l 0 none with _ | ⟨j, x, v⟩
  · cases l with
    | nil => exact absurd rfl hl
    | cons a rest =>
      rw [show argminGo f (a :: rest) 0 none = argminGo f rest 1 (some (0, a, f a)) from rfl]
        at hgo
      exact absurd hgo (argminGo_ne_none f rest 1 0 a (f a))
  · have hle := argminGo_le f l 0 none j x v hgo
    have hgd := argminGo_getD f l d l.length 0 none (by omega) (by intro a b c h; simp at h)
      j x v (by simpa using hgo)
    intro y hy
    show f (l.getD j d) ≤ f y
    rw [hgd.2.1, hgd.2.2]
    exact hle.1 y hy

lemma nearestIdx_getD_eq_of_mem {palette : List Color} {c : Color} (hc : c ∈ palette) :
    palette.getD (nearestIdx palette c) (0, 0, 0) = c := by
  have hl : palette ≠ [] := List.ne_nil_of_mem hc
  obtain ⟨hlt, hmin⟩ := argminIdx_spec (fun p => sqDist p c) palette (0, 0, 0) hl
  have h0 := hmin c hc
  simp only [sqDist_self, Nat.le_zero] at h0
  exact sqDist_eq_zero (show sqDist (palette.getD (nearestIdx palette c) (0, 0, 0)) c = 0 by
    unfold nearestIdx
    exact h0)

/-! Helper lemmas: roulette selections and centroid-list lengths. -/

lemma roulettePickGo_isSome (t : ℚ) :
    ∀ (l : List ℕ) (acc j : ℕ), l ≠ [] → t ≤ ((acc + l.sum : ℕ) : ℚ) →
      (roulettePickGo t l acc j).isSome := by
  intro l
  induction l with
  | nil => intro acc j h; exact absurd rfl h
  | cons d rest ih =>
    intro acc j _ ht
    unfold roulettePickGo
    by_cases hc : t ≤ ((acc + d : ℕ) : ℚ)
    · rw [if_pos hc]; rfl
    · rw [if_neg hc]
      cases rest with
      | nil =>
        exfalso
        apply hc
        simpa using ht
      | cons e rest2 =>
        apply ih (acc + d) (j + 1) (by simp)
        have : ((acc + d + (e :: rest2).sum : ℕ) : ℚ) = ((acc + (d :: e :: rest2).sum : ℕ) : ℚ) := by
          push_cast
          simp [List.sum_cons]
          ring
        rw [this]
        exact ht

lemma rng_mul_le (q : ℚ) (s : ℕ) (h0 : 0 ≤ q) (h1 : q < 1) : q * (s : ℚ) ≤ (s : ℚ) := by
  have hs : (0 : ℚ) ≤ (s : ℚ) := by positivity
  calc q * (s : ℚ) ≤ 1 * (s : ℚ) := by
        exact mul_le_mul_of_nonneg_right (le_of_lt h1) hs
    _ = (s : ℚ) := by ring

lemma initGo_length (pixels : List Color) (rng : ℕ → ℚ) (hp : pixels ≠ [])
    (hr : ∀ i, 0 ≤ rng i ∧ rng i < 1) :
    ∀ (n c : ℕ) (cents : List Color), (initGo pixels rng n c cents).1.length = cents.length + n := by
  intro n
  induction n with
  | zero => intro c cents; rfl
  | succ m ih =>
    intro c cents
    unfold initGo
    have hd : (pixels.map fun p => minDistSq p cents) ≠ [] := by
      simpa using hp
    have hsome := roulettePickGo_isSome (rng c * (((pixels.map fun p => minDistSq p cents).sum : ℕ) : ℚ))
      (pixels.map fun p => minDistSq p cents) 0 0 hd
      (by
        rw [Nat.zero_add]
        exact rng_mul_le (rng c) _ (hr c).1 (hr c).2)
    rcases hj : roulettePickGo (rng c * (((pixels.map fun p => minDistSq p cents).sum : ℕ) : ℚ))
        (pixels.map fun p => minDistSq p cents) 0 0 with _ | j
    · rw [hj] at hsome; simp at hsome
    · simp only [hj]
      rw [ih]
      simp
      omega

lemma initializeCentroids_length (pixels : List Color) (k : ℕ) (rng : ℕ → ℚ)
    (hp : pixels ≠ []) (hk : 1 ≤ k) (hr : ∀ i, 0 ≤ rng i ∧ rng i < 1) :
    (initializeCentroidsKMeansPlusPlus pixels k rng).1.length = k := by
  unfold initializeCentroidsKMeansPlusPlus
  rw [initGo_length pixels rng hp hr]
  simp
  omega

lemma updStep_len (pixels : List Color) (assigns : List ℕ) (rng : ℕ → ℚ)
    (st : List Color × ℕ) (i : ℕ) : (updStep pixels assigns rng st i).1.length = st.1.length + 1 := by
  unfold updStep
  by_cases h : (((pixels.zip assigns).filter fun pa => decide (pa.2 = i)).map fun pa => pa.1).length = 0
  · rw [if_pos h]; simp
  · rw [if_neg h]; simp

lemma foldl_updStep_len (pixels : List Color) (assigns : List ℕ) (rng : ℕ → ℚ) :
    ∀ (l : List ℕ) (st : List Color × ℕ),
      (l.foldl (updStep pixels assigns rng) st).1.length = st.1.length + l.length := by
  intro l
  induction l with
  | nil => intro st; simp
  | cons a rest ih =>
    intro st
    rw [List.foldl_cons, ih, updStep_len]
    simp
    omega

lemma updateCentroids_length (pixels : List Color) (assigns : List ℕ) (k : ℕ) (rng : ℕ → ℚ)
    (c : ℕ) : (updateCentroids pixels assigns k rng c).1.length = k := by
  unfold updateCentroids
  rw [foldl_updStep_len]
  simp

lemma lloydGo_spec (pixels : List Color) (k : ℕ) (rng : ℕ → ℚ) (hk : 0 < k) :
    ∀ (fuel : ℕ) (assigns : List ℕ) (cents : List Color) (c : ℕ),
      cents.length = k → (∀ a ∈ assigns, a < k) →
      (lloydGo pixels k rng fuel assigns cents c).2.1.length = k ∧
        ∀ a ∈ (lloydGo pixels k rng fuel assigns cents c).1, a < k := by
  intro fuel
  induction fuel with
  | zero => intro assigns cents c hc ha; exact ⟨hc, ha⟩
  | succ m ih =>
    intro assigns cents c hc ha
    unfold lloydGo
    have hcne : cents ≠ [] := by
      intro h; rw [h] at hc; simp at hc; omega
    have hnew : ∀ a ∈ pixels.map fun p => findClosestCentroid p cents, a < k := by
      intro a hmem
      obtain ⟨p, _, rfl⟩ := List.mem_map.1 hmem
      have := argminIdx_lt (sqDist p) cents hcne
      unfold findClosestCentroid
      omega
    have hlen : ((updateCentroids pixels (pixels.map fun p => findClosestCentroid p cents) k rng
        c).1 ++ cents.drop k).length = k := by
      rw [List.length_append, updateCentroids_length, List.length_drop, hc]
      omega
    by_cases heq : (pixels.map fun p => findClosestCentroid p cents) = assigns
    · rw [if_pos heq]
      exact ⟨hlen, by rw [heq] at hnew ⊢; exact hnew⟩
    · rw [if_neg heq]
      exact ih _ _ _ hlen hnew

lemma kppLoop_length (bins : List Bin) (targetK : ℕ) (rng : ℕ → ℚ) :
    ∀ (fuel c : ℕ) (cents : List Color), cents.length ≤ targetK →
      targetK ≤ cents.length + fuel →
      (kppLoop bins targetK rng fuel c cents).length = targetK := by
  intro fuel
  induction fuel with
  | zero => intro c cents h1 h2; unfold kppLoop; omega
  | succ m ih =>
    intro c cents h1 h2
    unfold kppLoop
    by_cases hlt : cents.length < targetK
    · rw [if_pos hlt]
      apply ih
      · simp; omega
      · simp; omega
    · rw [if_neg hlt]
      omega

lemma lloydStep_length (bins : List Bin) (cents : List Color) :
    (lloydStep bins cents).length = cents.length := by
  unfold lloydStep
  simp

lemma firstPickGo_length_le (r : ℚ) :
    ∀ (l : List Bin) (acc : ℕ), (firstPickGo r l acc).length ≤ 1 := by
  intro l
  induction l with
  | nil => intro acc; simp [firstPickGo]
  | cons b rest ih =>
    intro acc
    unfold firstPickGo
    by_cases h : r ≤ ((acc + b.count : ℕ) : ℚ)
    · rw [if_pos h]; simp
    · rw [if_neg h]; exact ih _

lemma refinePalette_length (bins : List Bin) (k : ℕ) (rng : ℕ → ℚ) (hk : 1 ≤ k) :
    (refinePalette bins k rng).length = min k (max 2 bins.length) := by
  unfold refinePalette
  rw [lloydStep_length, lloydStep_length, lloydStep_length]
  apply kppLoop_length
  · have := firstPickGo_length_le (rng 0 * ((sumCounts bins : ℕ) : ℚ)) bins 0
    unfold firstPick
    omega
  · omega

/-! Helper lemmas: the box-splitting loop. -/

lemma chooseBestGo_lt :
    ∀ (l : List Box) (i : ℕ) (best : Option (ℕ × ℕ × ℕ)),
      (∀ j s c, best = some (j, s, c) → j < i) →
      ∀ j s c, chooseBestGo l i best = some (j, s, c) → j < i + l.length := by
  intro l
  induction l with
  | nil =>
    intro i best hb j s c h
    simp only [chooseBestGo] at h
    have := hb j s c h
    omega
  | cons bx rest ih =>
    intro i best hb j s c h
    have hstep : ∀ j s c, (some (i, boxRangeSum bx, bx.count) : Option (ℕ × ℕ × ℕ)) =
        some (j, s, c) → j < i + 1 := by
      intro j0 s0 c0 he
      simp only [Option.some.injEq, Prod.mk.injEq] at he
      omega
    cases best with
    | none =>
      rw [show chooseBestGo (bx :: rest) i none =
        if 1 < bx.bins.length then chooseBestGo rest (i + 1) (some (i, boxRangeSum bx, bx.count))
        else chooseBestGo rest (i + 1) none from rfl] at h
      by_cases hc : 1 < bx.bins.length
      · rw [if_pos hc] at h
        have := ih (i + 1) _ hstep j s c h
        simp at *
        omega
      · rw [if_neg hc] at h
        have := ih (i + 1) none (by intro a b c0 he; simp at he) j s c h
        simp at *
        omega
    | some t =>
      obtain ⟨j1, s1, c1⟩ := t
      rw [show chooseBestGo (bx :: rest) i (some (j1, s1, c1)) =
        if scoreGT (boxRangeSum bx) bx.count s1 c1 ∧ 1 < bx.bins.length then
          chooseBestGo rest (i + 1) (some (i, boxRangeSum bx, bx.count))
        else chooseBestGo rest (i + 1) (some (j1, s1, c1)) from rfl] at h
      by_cases hc : scoreGT (boxRangeSum bx) bx.count s1 c1 ∧ 1 < bx.bins.length
      · rw [if_pos hc] at h
        have := ih (i + 1) _ hstep j s c h
        simp at *
        omega
      · rw [if_neg hc] at h
        have := ih (i + 1) (some (j1, s1, c1))
          (by intro a b c0 he
              simp only [Option.some.injEq, Prod.mk.injEq] at he
              have := hb j1 s1 c1 rfl
              omega) j s c h
        simp at *
        omega

lemma chooseBest_lt (boxes : List Box) (i : ℕ) (h : chooseBest boxes = some i) :
    i < boxes.length := by
  unfold chooseBest at h
  rcases hgo : chooseBestGo boxes 0 none with _ | ⟨j, s, c⟩
  · rw [hgo] at h; simp at h
  · rw [hgo] at h
    simp at h
    have := chooseBestGo_lt boxes 0 none (by intro a b c0 he; simp at he) j s c hgo
    omega

lemma perm_getD_eraseIdx {α : Type} (d : α) :
    ∀ (l : List α) (i : ℕ), i < l.length → List.Perm l (l.getD i d :: l.eraseIdx i) := by
  intro l
  induction l with
  | nil => intro i h; simp at h
  | cons a rest ih =>
    intro i h
    cases i with
    | zero => simp [List.eraseIdx]
    | succ m =>
      have hm : m < rest.length := by simp at h; omega
      have step : List.Perm (a :: rest) (a :: (rest.getD m d :: rest.eraseIdx m)) :=
        (ih m hm).cons a
      refine step.trans ?_
      simp only [List.getD_cons_succ, List.eraseIdx_cons_succ]
      exact List.Perm.swap _ _ _

lemma makeBox_bins (items : List Bin) : (makeBox items).bins = items := rfl

lemma makeBox_count (items : List Bin) : (makeBox items).count = sumCounts items := rfl

lemma sortedBins_perm (box : Box) : List.Perm (sortedBins box) box.bins :=
  List.perm_insertionSort _ box.bins

lemma splitBox_spec {box l r : Box} (h : splitBox box = some (l, r)) :
    List.Perm (l.bins ++ r.bins) box.bins ∧
      l.count = sumCounts l.bins ∧ r.count = sumCounts r.bins ∧
      l.bins ≠ [] ∧ r.bins ≠ [] := by
  unfold splitBox at h
  by_cases hcond : cutOf box = 0 ∨ (sortedBins box).length - 1 ≤ cutOf box
  · rw [if_pos hcond] at h; simp at h
  · rw [if_neg hcond] at h
    simp only [Option.some.injEq, Prod.mk.injEq] at h
    obtain ⟨rfl, rfl⟩ := h
    push_neg at hcond
    obtain ⟨hc0, hclen⟩ := hcond
    have hlen : cutOf box + 1 < (sortedBins box).length := by omega
    refine ⟨?_, makeBox_count _, makeBox_count _, ?_, ?_⟩
    · rw [makeBox_bins, makeBox_bins, List.take_append_drop]
      exact sortedBins_perm box
    · rw [makeBox_bins]
      intro hnil
      rw [List.take_eq_nil_iff] at hnil
      rcases hnil with h1 | h1
      · omega
      · rw [h1] at hlen; simp at hlen
    · rw [makeBox_bins]
      intro hnil
      rw [List.drop_eq_nil_iff] at hnil
      omega

lemma sumCounts_append (l1 l2 : List Bin) :
    sumCounts (l1 ++ l2) = sumCounts l1 + sumCounts l2 := by
  rw [sumCounts_eq, sumCounts_eq, sumCounts_eq, List.map_append, List.sum_append]

lemma sumCounts_perm {l1 l2 : List Bin} (h : List.Perm l1 l2) : sumCounts l1 = sumCounts l2 := by
  rw [sumCounts_eq, sumCounts_eq]
  exact (h.map Bin.count).sum_eq

lemma splitLoopGo_invariant :
    ∀ (fuel k : ℕ) (boxes : List Box),
      (∀ bx ∈ boxes, bx.count = sumCounts bx.bins ∧ bx.bins ≠ []) →
      List.Perm ((splitLoopGo fuel k boxes).flatMap Box.bins) (boxes.flatMap Box.bins) ∧
        (∀ bx ∈ splitLoopGo fuel k boxes, bx.count = sumCounts bx.bins ∧ bx.bins ≠ []) ∧
        (splitLoopGo fuel k boxes).length ≤ max boxes.length k ∧
        (boxes ≠ [] → splitLoopGo fuel k boxes ≠ []) := by
  intro fuel
  induction fuel with
  | zero =>
    intro k boxes hwf
    simp only [splitLoopGo]
    exact ⟨List.Perm.refl _, hwf, Nat.le_max_left _ _, fun h => h⟩
  | succ m ih =>
    intro k boxes hwf
    by_cases hk : boxes.length < k
    · rcases hcb : chooseBest boxes with _ | i
      · have hred : splitLoopGo (m + 1) k boxes = boxes := by
          unfold splitLoopGo
          rw [if_pos hk, hcb]
        rw [hred]
        exact ⟨List.Perm.refl _, hwf, Nat.le_max_left _ _, fun h => h⟩
      · have hi : i < boxes.length := chooseBest_lt boxes i hcb
        have hperm0 := perm_getD_eraseIdx (default : Box) boxes i hi
        have hmem_chosen : boxes.getD i default ∈ boxes := by
          rw [List.getD_eq_getElem boxes default hi]
          exact List.getElem_mem hi
        have hmem_rest : ∀ bx ∈ boxes.eraseIdx i, bx ∈ boxes := by
          intro bx hmem
          exact List.mem_of_mem_eraseIdx hmem
        have hlen_erase : (boxes.eraseIdx i).length = boxes.length - 1 := by
          rw [List.length_eraseIdx]
          simp [hi]
        rcases hsp : splitBox (boxes.getD i default) with _ | ⟨l, r⟩
        · have hred : splitLoopGo (m + 1) k boxes =
              boxes.eraseIdx i ++ [boxes.getD i default] := by
            unfold splitLoopGo
            rw [if_pos hk, hcb]
            show (match splitBox (boxes.getD i default) with
              | none => boxes.eraseIdx i ++ [boxes.getD i default]
              | some (l, r) => splitLoopGo m k (boxes.eraseIdx i ++ [l, r])) = _
            rw [hsp]
          rw [hred]
          refine ⟨?_, ?_, ?_, ?_⟩
          · exact ((List.perm_append_singleton _ _).trans hperm0.symm).flatMap_right Box.bins
          · intro bx hmem
            rcases List.mem_append.1 hmem with h1 | h1
            · exact hwf bx (hmem_rest bx h1)
            · rw [List.mem_singleton] at h1
              rw [h1]
              exact hwf _ hmem_chosen
          · rw [List.length_append, hlen_erase]
            simp
            omega
          · intro _
            simp
        · have hred : splitLoopGo (m + 1) k boxes =
              splitLoopGo m k (boxes.eraseIdx i ++ [l, r]) := by
            show (if boxes.length < k then
                match chooseBest boxes with
                | none => boxes
                | some i =>
                  match splitBox (boxes.getD i default) with
                  | none => boxes.eraseIdx i ++ [boxes.getD i default]
                  | some (l, r) => splitLoopGo m k (boxes.eraseIdx i ++ [l, r])
              else boxes) = _
            rw [if_pos hk, hcb]
            show (match splitBox (boxes.getD i default) with
              | none => boxes.eraseIdx i ++ [boxes.getD i default]
              | some (l, r) => splitLoopGo m k (boxes.eraseIdx i ++ [l, r])) = _
            rw [hsp]
          rw [hred]
          obtain ⟨hp, hlc, hrc, hlne, hrne⟩ := splitBox_spec hsp
          have hrec := ih k (boxes.eraseIdx i ++ [l, r])
            (by
              intro bx hmem
              rcases List.mem_append.1 hmem with h1 | h1
              · exact hwf bx (hmem_rest bx h1)
              · rcases List.mem_cons.1 h1 with rfl | h2
                · exact ⟨hlc, hlne⟩
                · rw [List.mem_singleton] at h2
                  rw [h2]
                  exact ⟨hrc, hrne⟩)
          refine ⟨?_, hrec.2.1, ?_, ?_⟩
          · refine hrec.1.trans ?_
            rw [List.flatMap_append]
            refine (List.Perm.append_left _
              (show List.Perm ([l, r].flatMap Box.bins) (boxes.getD i default).bins by
                simpa using hp)).trans ?_
            refine List.perm_append_comm.trans ?_
            rw [← List.flatMap_cons]
            exact (hperm0.flatMap_right Box.bins).symm
          · have h1 := hrec.2.2.1
            rw [List.length_append, hlen_erase] at h1
            simp at h1
            omega
          · intro _
            exact hrec.2.2.2 (by simp)
    · have hred : splitLoopGo (m + 1) k boxes = boxes := by
        unfold splitLoopGo
        rw [if_neg hk]
      rw [hred]
      exact ⟨List.Perm.refl _, hwf, Nat.le_max_left _ _, fun h => h⟩

lemma sumCounts_flatMap (boxes : List Box) :
    sumCounts (boxes.flatMap Box.bins) = (boxes.map fun bx => sumCounts bx.bins).sum := by
  induction boxes with
  | nil => simp [sumCounts]
  | cons bx rest ih =>
    rw [List.flatMap_cons, sumCounts_append, ih, List.map_cons, List.sum_cons]

/-! Helper lemmas: the histogram and bin construction. -/

lemma filterMap_filter_isSome {α β : Type} (f : α → Option β) (l : List α) :
    (l.filter fun j => (f j).isSome).filterMap f = l.filterMap f := by
  induction l with
  | nil => simp
  | cons a rest ih =>
    rcases hfa : f a with _ | b
    · rw [List.filter_cons, List.filterMap_cons, hfa]
      simp only [hfa, Option.isSome_none, Bool.false_eq_true, if_false]
      exact ih
    · rw [List.filter_cons, List.filterMap_cons, hfa]
      simp only [hfa, Option.isSome_some, if_true]
      rw [List.filterMap_cons, hfa]
      rw [ih]

lemma buildBins_eq_support (data : List ℕ) (idxs : List ℕ)
    (hs : idxs.Sorted (· < ·))
    (hiff : ∀ j : ℕ, ((binsF data j).isSome ∧ j < 32768) ↔ j ∈ idxs) :
    buildBins data = idxs.filterMap (binsF data) := by
  unfold buildBins
  rw [← filterMap_filter_isSome (binsF data) (List.range 32768),
    ← filterMap_filter_isSome (binsF data) idxs]
  have hperm : List.Perm ((List.range 32768).filter fun j => (binsF data j).isSome)
      (idxs.filter fun j => (binsF data j).isSome) := by
    apply (List.perm_ext_iff_of_nodup
      ((List.sorted_lt_range 32768).filter _).nodup (hs.filter _).nodup).2
    intro j
    rw [List.mem_filter, List.mem_filter, List.mem_range]
    constructor
    · intro ⟨h1, h2⟩
      exact ⟨(hiff j).1 ⟨by simpa using h2, h1⟩, by simpa using h2⟩
    · intro ⟨h1, h2⟩
      have := (hiff j).2 h1
      exact ⟨this.2, by simpa using this.1⟩
  have hfeq : ((List.range 32768).filter fun j => (binsF data j).isSome) =
      idxs.filter fun j => (binsF data j).isSome :=
    List.eq_of_perm_of_sorted hperm ((List.sorted_lt_range 32768).filter _) (hs.filter _)
  rw [hfeq]

lemma zero_mem_sampleIdxs (len step : ℕ) (hl : 0 < len) (hs : 0 < step) :
    0 ∈ sampleIdxs len step := by
  unfold sampleIdxs
  rw [List.mem_range']
  exact ⟨0, by
    constructor
    · exact Nat.div_pos (by omega) hs
    · omega⟩

lemma histCount_pos (data : List ℕ) (hd : data ≠ []) :
    0 < histCount data (stepOf data.length)
      (histIdx (data.getD 0 0) (data.getD 1 0) (data.getD 2 0)) := by
  unfold histCount
  have h0 : (0 : ℕ) ∈ sampleIdxs data.length (stepOf data.length) := by
    apply zero_mem_sampleIdxs
    · cases data with
      | nil => exact absurd rfl hd
      | cons a rest => simp
    · unfold stepOf
      by_cases h : 2000000 < data.length
      · rw [if_pos h]; omega
      · rw [if_neg h]; omega
  have hmem : (0 : ℕ) ∈ (sampleIdxs data.length (stepOf data.length)).filter fun i =>
      decide (histIdx (data.getD i 0) (data.getD (i + 1) 0) (data.getD (i + 2) 0) =
        histIdx (data.getD 0 0) (data.getD 1 0) (data.getD 2 0)) := by
    rw [List.mem_filter]
    exact ⟨h0, by simp⟩
  have := List.length_pos.2 (List.ne_nil_of_mem hmem)
  omega

lemma buildBins_ne_nil (data : List ℕ) (hd : data ≠ []) (hle : ∀ x ∈ data, x ≤ 255) :
    buildBins data ≠ [] := by
  unfold buildBins
  intro h
  rw [List.filterMap_eq_nil_iff] at h
  have hidx : histIdx (data.getD 0 0) (data.getD 1 0) (data.getD 2 0) < 32768 :=
    histIdx_lt (getD_le_of_all_le hle 0) (getD_le_of_all_le hle 1) (getD_le_of_all_le hle 2)
  have hmem := h (histIdx (data.getD 0 0) (data.getD 1 0) (data.getD 2 0))
    (List.mem_range.2 hidx)
  unfold binsF at hmem
  have hpos := histCount_pos data hd
  rw [if_neg (by omega)] at hmem
  simp at hmem

/-! Helper lemmas: the fast quantizer's palette. -/

lemma boxesOf_spec (data : List ℕ) (k : ℕ) (hk : 1 ≤ k) (hb : buildBins data ≠ []) :
    List.Perm ((boxesOf data k).flatMap Box.bins) (buildBins data) ∧
      (∀ bx ∈ boxesOf data k, bx.count = sumCounts bx.bins ∧ bx.bins ≠ []) ∧
      (boxesOf data k).length ≤ k ∧ boxesOf data k ≠ [] := by
  unfold boxesOf
  have hinv := splitLoopGo_invariant k k [makeBox (buildBins data)]
    (by
      intro bx hmem
      rw [List.mem_singleton] at hmem
      rw [hmem]
      refine ⟨?_, by rw [makeBox_bins]; exact hb⟩
      rw [makeBox_bins]
      exact makeBox_count _)
  refine ⟨?_, hinv.2.1, ?_, ?_⟩
  · refine hinv.1.trans ?_
    rw [List.flatMap_cons, List.flatMap_nil, List.append_nil, makeBox_bins]
  · have h2 := hinv.2.2.1
    rw [List.length_singleton] at h2
    omega
  · exact hinv.2.2.2 (by simp)

lemma palette0Of_length (data : List ℕ) (k : ℕ) :
    (palette0Of data k).length = (boxesOf data k).length := by
  unfold palette0Of
  rw [List.length_map]

lemma palFast_length_bounds (data : List ℕ) (k : ℕ) (rng : ℕ → ℚ) (hk : 1 ≤ k)
    (hb : buildBins data ≠ []) :
    1 ≤ (palFast data k rng).length ∧ (palFast data k rng).length ≤ k := by
  unfold palFast
  by_cases hc : (palette0Of data k).length < k
  · rw [if_pos hc, refinePalette_length _ _ _ hk]
    omega
  · rw [if_neg hc]
    obtain ⟨_, _, hlen, hne⟩ := boxesOf_spec data k hk hb
    rw [palette0Of_length]
    have hpos := List.length_pos.2 hne
    omega

lemma palFast_ne_nil (data : List ℕ) (k : ℕ) (rng : ℕ → ℚ) (hk : 1 ≤ k)
    (hb : buildBins data ≠ []) : palFast data k rng ≠ [] := by
  have := (palFast_length_bounds data k rng hk hb).1
  intro h
  rw [h] at this
  simp at this

lemma quantizeImportantColors_eq (data : List ℕ) (width height k : ℕ) (rng : ℕ → ℚ)
    (hb : buildBins data ≠ []) :
    quantizeImportantColors data width height k rng =
      (palFast data k rng, remapData data (palFast data k rng)) := by
  unfold quantizeImportantColors
  rw [if_neg hb]

/-! Helper lemmas: the exact quantizer's palette. -/

lemma extractPixels_length (data : List ℕ) :
    (extractPixels data).length = (data.length + 3) / 4 := by
  unfold extractPixels sampleIdxs
  rw [List.length_map, List.length_range']
  omega

lemma extractPixels_ne_nil (data : List ℕ) (hd : data ≠ []) : extractPixels data ≠ [] := by
  intro h
  have h1 := extractPixels_length data
  rw [h, List.length_nil] at h1
  have h2 : 0 < data.length := List.length_pos.2 hd
  omega

lemma kMeansQuantize_palette_length (data : List ℕ) (width height k maxIterations : ℕ)
    (rng : ℕ → ℚ) (hd : data ≠ []) (hk : 1 ≤ k) (hr : ∀ i, 0 ≤ rng i ∧ rng i < 1) :
    (kMeansQuantize data width height k maxIterations rng).1.length = k := by
  unfold kMeansQuantize lloydResult
  have hp := extractPixels_ne_nil data hd
  have hinit := initializeCentroids_length (extractPixels data) k rng hp hk hr
  exact (lloydGo_spec (extractPixels data) k rng (by omega) maxIterations _ _ _ hinit
    (by intro a ha; rw [List.mem_replicate] at ha; omega)).1

/-! Helper lemmas: block-of-4 access into the flattened output buffers. -/

lemma length_flatMap_quad {α : Type} (f1 f2 f3 f4 : α → ℕ) :
    ∀ l : List α, (l.flatMap fun i => [f1 i, f2 i, f3 i, f4 i]).length = 4 * l.length := by
  intro l
  induction l with
  | nil => simp
  | cons a rest ih =>
    rw [List.flatMap_cons, List.length_append, ih]
    simp
    omega

lemma getD_flatMap_quad {α : Type} (f1 f2 f3 f4 : α → ℕ) :
    ∀ (l : List α) (p : ℕ), p < l.length → ∀ (q : ℕ), q < 4 → ∀ (d : ℕ) (dd : α),
      (l.flatMap fun i => [f1 i, f2 i, f3 i, f4 i]).getD (4 * p + q) d =
        [f1 (l.getD p dd), f2 (l.getD p dd), f3 (l.getD p dd), f4 (l.getD p dd)].getD q d := by
  intro l
  induction l with
  | nil => intro p hp; simp at hp
  | cons a rest ih =>
    intro p hp q hq d dd
    cases p with
    | zero =>
      rw [List.flatMap_cons, show 4 * 0 + q = q by omega,
        List.getD_append _ _ _ _ (by simp; omega)]
      rfl
    | succ m =>
      rw [List.flatMap_cons,
        show 4 * (m + 1) + q = ([f1 a, f2 a, f3 a, f4 a].length) + (4 * m + q) by
          simp; ring,
        List.getD_append_right _ _ _ _ (by omega), Nat.add_sub_cancel_left]
      have hm : m < rest.length := by simp at hp; omega
      rw [ih m hm q hq d dd]
      rfl

lemma sampleIdxs_length (len step : ℕ) : (sampleIdxs len step).length = (len + step - 1) / step := by
  unfold sampleIdxs
  rw [List.length_range']

lemma sampleIdxs_getD (len step p d : ℕ) (hp : p < (len + step - 1) / step) :
    (sampleIdxs len step).getD p d = step * p := by
  unfold sampleIdxs
  rw [List.getD_eq_getElem _ _ (by rw [List.length_range']; exact hp), List.getElem_range']
  omega

lemma nearestLUT_lt (pal : List Color) (hpal : pal ≠ []) (idx : ℕ) :
    nearestLUT pal idx < pal.length := by
  unfold nearestLUT nearestIdx
  exact argminIdx_lt _ pal hpal

lemma remapData_length (data : List ℕ) (pal : List Color) :
    (remapData data pal).length = 4 * ((data.length + 3) / 4) := by
  unfold remapData
  rw [length_flatMap_quad, sampleIdxs_length]
  omega

lemma remapColor_mem (data : List ℕ) (pal : List Color) (hpal : pal ≠ []) (i : ℕ) :
    remapColor data pal i ∈ pal := by
  unfold remapColor
  have hlt := nearestLUT_lt pal hpal
    (histIdx (data.getD i 0) (data.getD (i + 1) 0) (data.getD (i + 2) 0))
  rw [List.getD_eq_getElem pal (0, 0, 0) hlt]
  exact List.getElem_mem hlt

lemma remapData_pixel (data : List ℕ) (pal : List Color) (p : ℕ)
    (hp : p < (data.length + 3) / 4) :
    (remapData data pal).getD (4 * p) 0 = (remapColor data pal (4 * p)).1 ∧
      (remapData data pal).getD (4 * p + 1) 0 = (remapColor data pal (4 * p)).2.1 ∧
      (remapData data pal).getD (4 * p + 2) 0 = (remapColor data pal (4 * p)).2.2 ∧
      (remapData data pal).getD (4 * p + 3) 0 = 255 := by
  have hplen : p < (sampleIdxs data.length 4).length := by
    rw [sampleIdxs_length]
    omega
  have hget := fun (q : ℕ) (hq : q < 4) => getD_flatMap_quad
    (fun i => (remapColor data pal i).1) (fun i => (remapColor data pal i).2.1)
    (fun i => (remapColor data pal i).2.2) (fun _ => 255)
    (sampleIdxs data.length 4) p hplen q hq 0 0
  have hsg : (sampleIdxs data.length 4).getD p 0 = 4 * p :=
    sampleIdxs_getD data.length 4 p 0 (by omega)
  rw [hsg] at hget
  refine ⟨?_, ?_, ?_, ?_⟩
  · have h0 := hget 0 (by omega)
    rw [show 4 * p + 0 = 4 * p by omega] at h0
    exact h0.trans (by rfl)
  · exact (hget 1 (by omega)).trans (by rfl)
  · exact (hget 2 (by omega)).trans (by rfl)
  · exact (hget 3 (by omega)).trans (by rfl)

lemma kMeansOut_length (cents : List Color) (assigns : List ℕ) (n : ℕ) :
    (kMeansOut cents assigns n).length = 4 * n := by
  unfold kMeansOut
  rw [length_flatMap_quad, List.length_range]

lemma kMeansOut_pixel (cents : List Color) (assigns : List ℕ) (n p : ℕ) (hp : p < n) :
    (kMeansOut cents assigns n).getD (4 * p) 0 =
        (cents.getD (assigns.getD p 0) (0, 0, 0)).1 ∧
      (kMeansOut cents assigns n).getD (4 * p + 1) 0 =
        (cents.getD (assigns.getD p 0) (0, 0, 0)).2.1 ∧
      (kMeansOut cents assigns n).getD (4 * p + 2) 0 =
        (cents.getD (assigns.getD p 0) (0, 0, 0)).2.2 ∧
      (kMeansOut cents assigns n).getD (4 * p + 3) 0 = 255 := by
  have hplen : p < (List.range n).length := by rw [List.length_range]; exact hp
  have hrg : (List.range n).getD p 0 = p := by
    rw [List.getD_eq_getElem _ _ hplen, List.getElem_range]
  have hget := fun (q : ℕ) (hq : q < 4) => getD_flatMap_quad
    (fun i => (cents.getD (assigns.getD i 0) (0, 0, 0)).1)
    (fun i => (cents.getD (assigns.getD i 0) (0, 0, 0)).2.1)
    (fun i => (cents.getD (assigns.getD i 0) (0, 0, 0)).2.2) (fun _ => 255)
    (List.range n) p hplen q hq 0 0
  rw [hrg] at hget
  refine ⟨?_, ?_, ?_, ?_⟩
  · have h0 := hget 0 (by omega)
    rw [show 4 * p + 0 = 4 * p by omega] at h0
    exact h0.trans (by rfl)
  · exact (hget 1 (by omega)).trans (by rfl)
  · exact (hget 2 (by omega)).trans (by rfl)
  · exact (hget 3 (by omega)).trans (by rfl)

/-- A concrete random stream for witnesses: every draw is 1/2. -/
def rngHalf : ℕ → ℚ := fun _ => 1 / 2

lemma rngHalf_valid : ∀ i, 0 ≤ rngHalf i ∧ rngHalf i < 1 := by
  intro i
  unfold rngHalf
  norm_num

/-- C1: for every non-empty pixel buffer (8-bit samples) and every requested
palette size k with 1 ≤ k ≤ 500, both quantization operations — kMeansQuantize
(exact mode, any iteration cap) and quantizeImportantColors (fast mode) —
return a palette whose length is at least 1 and at most k. -/
theorem C1_palette_length_bounds (data : List ℕ) (width height k maxIterations : ℕ)
    (rng : ℕ → ℚ) (hd : data ≠ []) (hle : ∀ x ∈ data, x ≤ 255) (hk1 : 1 ≤ k) (hk2 : k ≤ 500)
    (hr : ∀ i, 0 ≤ rng i ∧ rng i < 1) :
    (1 ≤ (kMeansQuantize data width height k maxIterations rng).1.length ∧
        (kMeansQuantize data width height k maxIterations rng).1.length ≤ k) ∧
      (1 ≤ (quantizeImportantColors data width height k rng).1.length ∧
        (quantizeImportantColors data width height k rng).1.length ≤ k) := by
  constructor
  · rw [kMeansQuantize_palette_length data width height k maxIterations rng hd hk1 hr]
    omega
  · have hb := buildBins_ne_nil data hd hle
    rw [quantizeImportantColors_eq data width height k rng hb]
    exact palFast_length_bounds data k rng hk1 hb

/-- Witness for C1 at the 1-by-1 image [10,20,30,255] with k = 5. -/
theorem C1_witness :
    (1 ≤ (kMeansQuantize [10, 20, 30, 255] 1 1 5 10 rngHalf).1.length ∧
        (kMeansQuantize [10, 20, 30, 255] 1 1 5 10 rngHalf).1.length ≤ 5) ∧
      (1 ≤ (quantizeImportantColors [10, 20, 30, 255] 1 1 5 rngHalf).1.length ∧
        (quantizeImportantColors [10, 20, 30, 255] 1 1 5 rngHalf).1.length ≤ 5) :=
  C1_palette_length_bounds [10, 20, 30, 255] 1 1 5 10 rngHalf (by decide)
    (by intro x hx; fin_cases hx <;> decide) (by decide) (by decide) rngHalf_valid

/-- C3: throughout the box-splitting loop (after any number of iterations,
i.e. for every fuel), for every k ≥ 1 and every non-empty bin set, the
multiset union of the bins of all current boxes is exactly the original bin
set (a permutation — no bin duplicated or dropped), the sum of all box
populations equals the sum of the original bin populations, and at most k
boxes exist. -/
theorem C3_partition_invariant (bins : List Bin) (k fuel : ℕ) (hk : 1 ≤ k)
    (hb : bins ≠ []) :
    List.Perm ((splitLoopGo fuel k [makeBox bins]).flatMap Box.bins) bins ∧
      ((splitLoopGo fuel k [makeBox bins]).map Box.count).sum = (bins.map Bin.count).sum ∧
      (splitLoopGo fuel k [makeBox bins]).length ≤ k := by
  have hinv := splitLoopGo_invariant fuel k [makeBox bins]
    (by
      intro bx hmem
      rw [List.mem_singleton] at hmem
      rw [hmem]
      refine ⟨?_, by rw [makeBox_bins]; exact hb⟩
      rw [makeBox_bins]
      exact makeBox_count _)
  have hperm : List.Perm ((splitLoopGo fuel k [makeBox bins]).flatMap Box.bins) bins := by
    refine hinv.1.trans ?_
    rw [List.flatMap_cons, List.flatMap_nil, List.append_nil, makeBox_bins]
  refine ⟨hperm, ?_, ?_⟩
  · have hmapeq : (splitLoopGo fuel k [makeBox bins]).map Box.count =
        (splitLoopGo fuel k [makeBox bins]).map fun bx => sumCounts bx.bins :=
      List.map_congr_left fun bx hmem => (hinv.2.1 bx hmem).1
    rw [hmapeq, ← sumCounts_flatMap, sumCounts_perm hperm, sumCounts_eq]
  · have h2 := hinv.2.2.1
    rw [List.length_singleton] at h2
    omega

/-- Witness for C3 at a concrete two-bin set with k = 3 and fuel = 3. -/
theorem C3_witness :
    List.Perm ((splitLoopGo 3 3 [makeBox [⟨4, 4, 4, 1⟩, ⟨100, 4, 4, 2⟩]]).flatMap Box.bins)
        [⟨4, 4, 4, 1⟩, ⟨100, 4, 4, 2⟩] ∧
      ((splitLoopGo 3 3 [makeBox [⟨4, 4, 4, 1⟩, ⟨100, 4, 4, 2⟩]]).map Box.count).sum =
        (([⟨4, 4, 4, 1⟩, ⟨100, 4, 4, 2⟩] : List Bin).map Bin.count).sum ∧
      (splitLoopGo 3 3 [makeBox [⟨4, 4, 4, 1⟩, ⟨100, 4, 4, 2⟩]]).length ≤ 3 :=
  C3_partition_invariant [⟨4, 4, 4, 1⟩, ⟨100, 4, 4, 2⟩] 3 3 (by decide) (by decide)

/-- C9: determinism modulo seeding — two runs of the fast quantizer on the
same buffer and same k, with random streams that agree draw by draw (the
same fixed seed), produce identical palettes. -/
theorem C9_determinism (data : List ℕ) (width height k : ℕ) (rng1 rng2 : ℕ → ℚ)
    (hseed : ∀ i, rng1 i = rng2 i) :
    (quantizeImportantColors data width height k rng1).1 =
      (quantizeImportantColors data width height k rng2).1 := by
  have h : rng1 = rng2 := funext hseed
  rw [h]

/-- Witness for C9 at a concrete buffer with two identically seeded streams. -/
theorem C9_witness :
    (quantizeImportantColors [10, 20, 30, 255] 1 1 5 rngHalf).1 =
      (quantizeImportantColors [10, 20, 30, 255] 1 1 5 (fun _ => 1 / 2)).1 :=
  C9_determinism [10, 20, 30, 255] 1 1 5 rngHalf (fun _ => 1 / 2) (fun i => rfl)

/-- C2: for every non-empty well-formed buffer (length = width*height*4,
8-bit samples) and every k ≥ 1, both quantization operations return a buffer
of identical dimensions in which every pixel's (R,G,B) triple is an entry of
the returned palette and every pixel's alpha equals 255 (stated for an
arbitrary pixel index p < width*height). -/
theorem C2_output_in_palette (data : List ℕ) (width height k maxIterations : ℕ)
    (rng : ℕ → ℚ) (p : ℕ) (hd : data ≠ []) (hwf : data.length = width * height * 4)
    (hle : ∀ x ∈ data, x ≤ 255) (hk : 1 ≤ k) (hr : ∀ i, 0 ≤ rng i ∧ rng i < 1)
    (hp : p < width * height) :
    ((kMeansQuantize data width height k maxIterations rng).2.length = data.length ∧
      (∃ c ∈ (kMeansQuantize data width height k maxIterations rng).1,
        (kMeansQuantize data width height k maxIterations rng).2.getD (4 * p) 0 = c.1 ∧
        (kMeansQuantize data width height k maxIterations rng).2.getD (4 * p + 1) 0 = c.2.1 ∧
        (kMeansQuantize data width height k maxIterations rng).2.getD (4 * p + 2) 0 = c.2.2) ∧
      (kMeansQuantize data width height k maxIterations rng).2.getD (4 * p + 3) 0 = 255) ∧
    ((quantizeImportantColors data width height k rng).2.length = data.length ∧
      (∃ c ∈ (quantizeImportantColors data width height k rng).1,
        (quantizeImportantColors data width height k rng).2.getD (4 * p) 0 = c.1 ∧
        (quantizeImportantColors data width height k rng).2.getD (4 * p + 1) 0 = c.2.1 ∧
        (quantizeImportantColors data width height k rng).2.getD (4 * p + 2) 0 = c.2.2) ∧
      (quantizeImportantColors data width height k rng).2.getD (4 * p + 3) 0 = 255) := by
  have hn : (extractPixels data).length = width * height := by
    rw [extractPixels_length, hwf]
    omega
  constructor
  · have hpix := extractPixels_ne_nil data hd
    have hinit := initializeCentroids_length (extractPixels data) k rng hpix hk hr
    have hspec := lloydGo_spec (extractPixels data) k rng (by omega) maxIterations
      (List.replicate (extractPixels data).length 0)
      (initializeCentroidsKMeansPlusPlus (extractPixels data) k rng).1
      (initializeCentroidsKMeansPlusPlus (extractPixels data) k rng).2 hinit
      (by intro a ha; rw [List.mem_replicate] at ha; omega)
    have hcl : (lloydResult (extractPixels data) k maxIterations rng).2.1.length = k :=
      hspec.1
    have hal : ∀ a ∈ (lloydResult (extractPixels data) k maxIterations rng).1, a < k :=
      hspec.2
    have hidx : (lloydResult (extractPixels data) k maxIterations rng).1.getD p 0 < k := by
      by_cases hpl : p < (lloydResult (extractPixels data) k maxIterations rng).1.length
      · rw [List.getD_eq_getElem _ _ hpl]
        exact hal _ (List.getElem_mem hpl)
      · rw [List.getD_eq_default _ _ (by omega)]
        omega
    have hout := kMeansOut_pixel (lloydResult (extractPixels data) k maxIterations rng).2.1
      (lloydResult (extractPixels data) k maxIterations rng).1
      (extractPixels data).length p (by omega)
    have hmem : (lloydResult (extractPixels data) k maxIterations rng).2.1.getD
        ((lloydResult (extractPixels data) k maxIterations rng).1.getD p 0) (0, 0, 0) ∈
        (lloydResult (extractPixels data) k maxIterations rng).2.1 := by
      have hlt : (lloydResult (extractPixels data) k maxIterations rng).1.getD p 0 <
          (lloydResult (extractPixels data) k maxIterations rng).2.1.length := by omega
      rw [List.getD_eq_getElem _ _ hlt]
      exact List.getElem_mem hlt
    refine ⟨?_, ⟨_, hmem, hout.1, hout.2.1, hout.2.2.1⟩, hout.2.2.2⟩
    rw [show (kMeansQuantize data width height k maxIterations rng).2 =
      kMeansOut (lloydResult (extractPixels data) k maxIterations rng).2.1
        (lloydResult (extractPixels data) k maxIterations rng).1
        (extractPixels data).length from rfl]
    rw [kMeansOut_length, hn, hwf]
    ring
  · have hb := buildBins_ne_nil data hd hle
    rw [quantizeImportantColors_eq data width height k rng hb]
    have hpal := palFast_ne_nil data k rng hk hb
    have hpx := remapData_pixel data (palFast data k rng) p (by rw [hwf]; omega)
    refine ⟨?_, ⟨remapColor data (palFast data k rng) (4 * p),
      remapColor_mem data _ hpal _, hpx.1, hpx.2.1, hpx.2.2.1⟩, hpx.2.2.2⟩
    rw [show ((palFast data k rng, remapData data (palFast data k rng)) :
      List Color × List ℕ).2 = remapData data (palFast data k rng) from rfl]
    rw [remapData_length, hwf]
    omega

/-- Witness for C2 at the 1-by-1 image [10,20,30,255], k = 5, pixel 0. -/
theorem C2_witness :
    ((kMeansQuantize [10, 20, 30, 255] 1 1 5 10 rngHalf).2.length =
        ([10, 20, 30, 255] : List ℕ).length ∧
      (∃ c ∈ (kMeansQuantize [10, 20, 30, 255] 1 1 5 10 rngHalf).1,
        (kMeansQuantize [10, 20, 30, 255] 1 1 5 10 rngHalf).2.getD (4 * 0) 0 = c.1 ∧
        (kMeansQuantize [10, 20, 30, 255] 1 1 5 10 rngHalf).2.getD (4 * 0 + 1) 0 = c.2.1 ∧
        (kMeansQuantize [10, 20, 30, 255] 1 1 5 10 rngHalf).2.getD (4 * 0 + 2) 0 = c.2.2) ∧
      (kMeansQuantize [10, 20, 30, 255] 1 1 5 10 rngHalf).2.getD (4 * 0 + 3) 0 = 255) ∧
    ((quantizeImportantColors [10, 20, 30, 255] 1 1 5 rngHalf).2.length =
        ([10, 20, 30, 255] : List ℕ).length ∧
      (∃ c ∈ (quantizeImportantColors [10, 20, 30, 255] 1 1 5 rngHalf).1,
        (quantizeImportantColors [10, 20, 30, 255] 1 1 5 rngHalf).2.getD (4 * 0) 0 = c.1 ∧
        (quantizeImportantColors [10, 20, 30, 255] 1 1 5 rngHalf).2.getD (4 * 0 + 1) 0 =
          c.2.1 ∧
        (quantizeImportantColors [10, 20, 30, 255] 1 1 5 rngHalf).2.getD (4 * 0 + 2) 0 =
          c.2.2) ∧
      (quantizeImportantColors [10, 20, 30, 255] 1 1 5 rngHalf).2.getD (4 * 0 + 3) 0 = 255) :=
  C2_output_in_palette [10, 20, 30, 255] 1 1 5 10 rngHalf 0 (by decide) (by decide)
    (by intro x hx; fin_cases hx <;> decide) (by decide) rngHalf_valid (by decide)

/-! C4: the split-channel rule and the weighted-median cut. -/

/-- A channel whose range is greater than or equal to the ranges of all three
channels of the box. -/
def channelWins (box : Box) (ch : Channel) : Bool :=
  decide (chRange Channel.r box ≤ chRange ch box ∧ chRange Channel.g box ≤ chRange ch box ∧
    chRange Channel.b box ≤ chRange ch box)

/-- Modelled from the claim's words: the first channel, in the given priority
order, whose range is greater than or equal to the others wins. -/
def firstMaxChannel (priority : List Channel) (box : Box) : Channel :=
  (priority.find? (channelWins box)).getD Channel.r

lemma splitChannel_max (box : Box) :
    chRange Channel.r box ≤ chRange (splitChannel box) box ∧
      chRange Channel.g box ≤ chRange (splitChannel box) box ∧
      chRange Channel.b box ≤ chRange (splitChannel box) box := by
  unfold splitChannel
  by_cases hg : box.rMax - box.rMin ≤ box.gMax - box.gMin ∧
      box.bMax - box.bMin ≤ box.gMax - box.gMin
  · rw [if_pos hg]
    simp only [chRange]
    omega
  · rw [if_neg hg]
    by_cases hb : box.rMax - box.rMin ≤ box.bMax - box.bMin ∧
        box.gMax - box.gMin ≤ box.bMax - box.bMin
    · rw [if_pos hb]
      simp only [chRange]
      omega
    · rw [if_neg hb]
      simp only [chRange]
      simp only [not_and_or, not_le] at hg hb
      omega

lemma splitChannel_eq_firstMax_gbr (box : Box) :
    splitChannel box = firstMaxChannel [Channel.g, Channel.b, Channel.r] box := by
  unfold splitChannel firstMaxChannel
  by_cases hg : box.rMax - box.rMin ≤ box.gMax - box.gMin ∧
      box.bMax - box.bMin ≤ box.gMax - box.gMin
  · rw [if_pos hg]
    rw [List.find?_cons_of_pos _ (by simp only [channelWins, chRange]; simp; omega)]
    rfl
  · rw [if_neg hg]
    have hgw : channelWins box Channel.g = false := by
      simp only [channelWins, chRange]
      simp only [not_and_or, not_le] at hg
      simp
      omega
    by_cases hb : box.rMax - box.rMin ≤ box.bMax - box.bMin ∧
        box.gMax - box.gMin ≤ box.bMax - box.bMin
    · rw [if_pos hb]
      rw [List.find?_cons_of_neg _ (by rw [hgw]; simp),
        List.find?_cons_of_pos _ (by simp only [channelWins, chRange]; simp; omega)]
      rfl
    · rw [if_neg hb]
      have hbw : channelWins box Channel.b = false := by
        simp only [channelWins, chRange]
        simp only [not_and_or, not_le] at hb
        simp
        omega
      rw [List.find?_cons_of_neg _ (by rw [hgw]; simp),
        List.find?_cons_of_neg _ (by rw [hbw]; simp),
        List.find?_cons_of_pos _ (by
          simp only [channelWins, chRange]
          simp only [not_and_or, not_le] at hg hb
          simp
          omega)]
      rfl

lemma findCutGo_spec (total : ℕ) :
    ∀ (l : List Bin) (acc i : ℕ), l ≠ [] → total ≤ 2 * (acc + sumCounts l) →
      i ≤ findCutGo total l acc i ∧
        findCutGo total l acc i - i < l.length ∧
        total ≤ 2 * (acc + sumCounts (l.take (findCutGo total l acc i - i + 1))) ∧
        ∀ j, j < findCutGo total l acc i - i → 2 * (acc + sumCounts (l.take (j + 1))) < total := by
  intro l
  induction l with
  | nil => intro acc i h; exact absurd rfl h
  | cons it rest ih =>
    intro acc i _ hex
    have hsc : sumCounts (it :: rest) = it.count + sumCounts rest := by
      rw [sumCounts_eq, List.map_cons, List.sum_cons, sumCounts_eq]
    rw [show findCutGo total (it :: rest) acc i =
      if total ≤ 2 * (acc + it.count) then i
      else findCutGo total rest (acc + it.count) (i + 1) from rfl]
    by_cases hc : total ≤ 2 * (acc + it.count)
    · rw [if_pos hc]
      refine ⟨le_refl i, by simp, ?_, ?_⟩
      · rw [Nat.sub_self, show (0 : ℕ) + 1 = 1 from rfl,
          show (1 : ℕ) = 0 + 1 from rfl, List.take_succ_cons, List.take_zero]
        have h1 : sumCounts [it] = it.count := by
          rw [sumCounts_eq]
          simp
        rw [h1]
        exact hc
      · intro j hj
        omega
    · rw [if_neg hc]
      have hrest : rest ≠ [] := by
        intro hnil
        subst hnil
        rw [hsc, show sumCounts ([] : List Bin) = 0 from rfl] at hex
        omega
      have hex2 : total ≤ 2 * ((acc + it.count) + sumCounts rest) := by
        rw [hsc] at hex
        omega
      obtain ⟨hge, hlt, hreach, hleast⟩ := ih (acc + it.count) (i + 1) hrest hex2
      have hsub : findCutGo total rest (acc + it.count) (i + 1) - i =
          (findCutGo total rest (acc + it.count) (i + 1) - (i + 1)) + 1 := by omega
      refine ⟨by omega, ?_, ?_, ?_⟩
      · rw [hsub]
        simp
        omega
      · rw [hsub, List.take_succ_cons]
        have h2 : sumCounts (it :: List.take (findCutGo total rest (acc + it.count)
            (i + 1) - (i + 1) + 1) rest) = it.count + sumCounts (List.take (findCutGo total
            rest (acc + it.count) (i + 1) - (i + 1) + 1) rest) := by
          rw [sumCounts_eq, List.map_cons, List.sum_cons, sumCounts_eq]
        rw [h2]
        omega
      · intro j hj
        cases j with
        | zero =>
          rw [show (0 : ℕ) + 1 = 1 from rfl, show (1 : ℕ) = 0 + 1 from rfl,
            List.take_succ_cons, List.take_zero]
          have h1 : sumCounts [it] = it.count := by
            rw [sumCounts_eq]
            simp
          rw [h1]
          omega
        | succ m =>
          rw [List.take_succ_cons]
          have h2 : sumCounts (it :: List.take (m + 1) rest) =
              it.count + sumCounts (List.take (m + 1) rest) := by
            rw [sumCounts_eq, List.map_cons, List.sum_cons, sumCounts_eq]
          rw [h2]
          have hm : m < findCutGo total rest (acc + it.count) (i + 1) - (i + 1) := by omega
          have := hleast m hm
          omega

lemma findCut_spec (l : List Bin) (total : ℕ) (hl : l ≠ []) (hex : total ≤ 2 * sumCounts l) :
    findCut l total < l.length ∧
      total ≤ 2 * sumCounts (l.take (findCut l total + 1)) ∧
      ∀ j, j < findCut l total → 2 * sumCounts (l.take (j + 1)) < total := by
  have := findCutGo_spec total l 0 0 hl (by omega)
  unfold findCut
  constructor
  · have h1 := this.2.1
    omega
  constructor
  · have h2 := this.2.2.1
    simpa using h2
  · intro j hj
    have h3 := this.2.2.2 j (by omega)
    omega

/-- C4 counterexample: a box that splitBox does split, whose R and G ranges
tie (both 8, B range 0). The claim's rule (ties broken R, then G, then B)
chooses R; the code chooses G. -/
theorem C4_counterexample :
    (splitBox (makeBox [⟨4, 4, 4, 1⟩, ⟨12, 4, 4, 1⟩, ⟨12, 12, 4, 2⟩])).isSome = true ∧
      splitChannel (makeBox [⟨4, 4, 4, 1⟩, ⟨12, 4, 4, 1⟩, ⟨12, 12, 4, 2⟩]) = Channel.g ∧
      firstMaxChannel [Channel.r, Channel.g, Channel.b]
        (makeBox [⟨4, 4, 4, 1⟩, ⟨12, 4, 4, 1⟩, ⟨12, 12, 4, 2⟩]) = Channel.r ∧
      splitChannel (makeBox [⟨4, 4, 4, 1⟩, ⟨12, 4, 4, 1⟩, ⟨12, 12, 4, 2⟩]) ≠
        firstMaxChannel [Channel.r, Channel.g, Channel.b]
          (makeBox [⟨4, 4, 4, 1⟩, ⟨12, 4, 4, 1⟩, ⟨12, 12, 4, 2⟩]) := by
  decide

/-- C4 amended: for every box being split, the chosen channel has the largest
range with ties broken in the order G, then B, then R (the first channel in
that order whose range is ≥ the others wins); the member bins are sorted by
that channel; the cut index is the first index at which cumulative population
reaches half the box total; the box splits into the sorted bins through the
cut inclusive and the remainder. -/
theorem C4_split_rule (box l r : Box) (hwf : box.count = sumCounts box.bins)
    (hsp : splitBox box = some (l, r)) :
    (chRange Channel.r box ≤ chRange (splitChannel box) box ∧
      chRange Channel.g box ≤ chRange (splitChannel box) box ∧
      chRange Channel.b box ≤ chRange (splitChannel box) box) ∧
    splitChannel box = firstMaxChannel [Channel.g, Channel.b, Channel.r] box ∧
    List.Perm (sortedBins box) box.bins ∧
    List.Sorted (fun a b => channelVal (splitChannel box) a ≤ channelVal (splitChannel box) b)
      (sortedBins box) ∧
    l = makeBox ((sortedBins box).take (cutOf box + 1)) ∧
    r = makeBox ((sortedBins box).drop (cutOf box + 1)) ∧
    box.count ≤ 2 * sumCounts ((sortedBins box).take (cutOf box + 1)) ∧
    (∀ j, j < cutOf box → 2 * sumCounts ((sortedBins box).take (j + 1)) < box.count) := by
  have hlr : l = makeBox ((sortedBins box).take (cutOf box + 1)) ∧
      r = makeBox ((sortedBins box).drop (cutOf box + 1)) := by
    unfold splitBox at hsp
    by_cases hcond : cutOf box = 0 ∨ (sortedBins box).length - 1 ≤ cutOf box
    · rw [if_pos hcond] at hsp; simp at hsp
    · rw [if_neg hcond] at hsp
      simp only [Option.some.injEq, Prod.mk.injEq] at hsp
      exact ⟨hsp.1.symm, hsp.2.symm⟩
  have hne : sortedBins box ≠ [] := by
    unfold splitBox at hsp
    by_cases hcond : cutOf box = 0 ∨ (sortedBins box).length - 1 ≤ cutOf box
    · rw [if_pos hcond] at hsp; simp at hsp
    · intro hnil
      push_neg at hcond
      rw [hnil] at hcond
      simp at hcond
  have hex : box.count ≤ 2 * sumCounts (sortedBins box) := by
    rw [sumCounts_perm (sortedBins_perm box), ← hwf]
    omega
  have hcut := findCut_spec (sortedBins box) box.count hne hex
  have hsorted : List.Sorted
      (fun a b => channelVal (splitChannel box) a ≤ channelVal (splitChannel box) b)
      (sortedBins box) := by
    haveI : IsTotal Bin
        (fun a b => channelVal (splitChannel box) a ≤ channelVal (splitChannel box) b) :=
      ⟨fun a b => Nat.le_total _ _⟩
    haveI : IsTrans Bin
        (fun a b => channelVal (splitChannel box) a ≤ channelVal (splitChannel box) b) :=
      ⟨fun a b c hab hbc => Nat.le_trans hab hbc⟩
    exact List.sorted_insertionSort _ box.bins
  exact ⟨splitChannel_max box, splitChannel_eq_firstMax_gbr box, sortedBins_perm box,
    hsorted, hlr.1, hlr.2, hcut.2.1, hcut.2.2⟩

/-- Witness for C4's amended rule at the concrete tie box. -/
theorem C4_split_rule_witness :
    (chRange Channel.r (makeBox [⟨4, 4, 4, 1⟩, ⟨12, 4, 4, 1⟩, ⟨12, 12, 4, 2⟩]) ≤
        chRange (splitChannel (makeBox [⟨4, 4, 4, 1⟩, ⟨12, 4, 4, 1⟩, ⟨12, 12, 4, 2⟩]))
          (makeBox [⟨4, 4, 4, 1⟩, ⟨12, 4, 4, 1⟩, ⟨12, 12, 4, 2⟩]) ∧
      chRange Channel.g (makeBox [⟨4, 4, 4, 1⟩, ⟨12, 4, 4, 1⟩, ⟨12, 12, 4, 2⟩]) ≤
        chRange (splitChannel (makeBox [⟨4, 4, 4, 1⟩, ⟨12, 4, 4, 1⟩, ⟨12, 12, 4, 2⟩]))
          (makeBox [⟨4, 4, 4, 1⟩, ⟨12, 4, 4, 1⟩, ⟨12, 12, 4, 2⟩]) ∧
      chRange Channel.b (makeBox [⟨4, 4, 4, 1⟩, ⟨12, 4, 4, 1⟩, ⟨12, 12, 4, 2⟩]) ≤
        chRange (splitChannel (makeBox [⟨4, 4, 4, 1⟩, ⟨12, 4, 4, 1⟩, ⟨12, 12, 4, 2⟩]))
          (makeBox [⟨4, 4, 4, 1⟩, ⟨12, 4, 4, 1⟩, ⟨12, 12, 4, 2⟩])) ∧
    splitChannel (makeBox [⟨4, 4, 4, 1⟩, ⟨12, 4, 4, 1⟩, ⟨12, 12, 4, 2⟩]) =
      firstMaxChannel [Channel.g, Channel.b, Channel.r]
        (makeBox [⟨4, 4, 4, 1⟩, ⟨12, 4, 4, 1⟩, ⟨12, 12, 4, 2⟩]) ∧
    List.Perm (sortedBins (makeBox [⟨4, 4, 4, 1⟩, ⟨12, 4, 4, 1⟩, ⟨12, 12, 4, 2⟩]))
      (makeBox [⟨4, 4, 4, 1⟩, ⟨12, 4, 4, 1⟩, ⟨12, 12, 4, 2⟩]).bins ∧
    List.Sorted (fun a b =>
        channelVal (splitChannel (makeBox [⟨4, 4, 4, 1⟩, ⟨12, 4, 4, 1⟩, ⟨12, 12, 4, 2⟩])) a ≤
        channelVal (splitChannel (makeBox [⟨4, 4, 4, 1⟩, ⟨12, 4, 4, 1⟩, ⟨12, 12, 4, 2⟩])) b)
      (sortedBins (makeBox [⟨4, 4, 4, 1⟩, ⟨12, 4, 4, 1⟩, ⟨12, 12, 4, 2⟩])) ∧
    makeBox ((sortedBins (makeBox [⟨4, 4, 4, 1⟩, ⟨12, 4, 4, 1⟩, ⟨12, 12, 4, 2⟩])).take
        (cutOf (makeBox [⟨4, 4, 4, 1⟩, ⟨12, 4, 4, 1⟩, ⟨12, 12, 4, 2⟩]) + 1)) =
      makeBox ((sortedBins (makeBox [⟨4, 4, 4, 1⟩, ⟨12, 4, 4, 1⟩, ⟨12, 12, 4, 2⟩])).take
        (cutOf (makeBox [⟨4, 4, 4, 1⟩, ⟨12, 4, 4, 1⟩, ⟨12, 12, 4, 2⟩]) + 1)) ∧
    makeBox ((sortedBins (makeBox [⟨4, 4, 4, 1⟩, ⟨12, 4, 4, 1⟩, ⟨12, 12, 4, 2⟩])).drop
        (cutOf (makeBox [⟨4, 4, 4, 1⟩, ⟨12, 4, 4, 1⟩, ⟨12, 12, 4, 2⟩]) + 1)) =
      makeBox ((sortedBins (makeBox [⟨4, 4, 4, 1⟩, ⟨12, 4, 4, 1⟩, ⟨12, 12, 4, 2⟩])).drop
        (cutOf (makeBox [⟨4, 4, 4, 1⟩, ⟨12, 4, 4, 1⟩, ⟨12, 12, 4, 2⟩]) + 1)) ∧
    (makeBox [⟨4, 4, 4, 1⟩, ⟨12, 4, 4, 1⟩, ⟨12, 12, 4, 2⟩] : Box).count ≤
      2 * sumCounts ((sortedBins (makeBox [⟨4, 4, 4, 1⟩, ⟨12, 4, 4, 1⟩, ⟨12, 12, 4, 2⟩])).take
        (cutOf (makeBox [⟨4, 4, 4, 1⟩, ⟨12, 4, 4, 1⟩, ⟨12, 12, 4, 2⟩]) + 1)) ∧
    (∀ j, j < cutOf (makeBox [⟨4, 4, 4, 1⟩, ⟨12, 4, 4, 1⟩, ⟨12, 12, 4, 2⟩]) →
      2 * sumCounts ((sortedBins (makeBox [⟨4, 4, 4, 1⟩, ⟨12, 4, 4, 1⟩, ⟨12, 12, 4, 2⟩])).take
        (j + 1)) < (makeBox [⟨4, 4, 4, 1⟩, ⟨12, 4, 4, 1⟩, ⟨12, 12, 4, 2⟩] : Box).count) :=
  C4_split_rule (makeBox [⟨4, 4, 4, 1⟩, ⟨12, 4, 4, 1⟩, ⟨12, 12, 4, 2⟩])
    (makeBox ((sortedBins (makeBox [⟨4, 4, 4, 1⟩, ⟨12, 4, 4, 1⟩, ⟨12, 12, 4, 2⟩])).take
      (cutOf (makeBox [⟨4, 4, 4, 1⟩, ⟨12, 4, 4, 1⟩, ⟨12, 12, 4, 2⟩]) + 1)))
    (makeBox ((sortedBins (makeBox [⟨4, 4, 4, 1⟩, ⟨12, 4, 4, 1⟩, ⟨12, 12, 4, 2⟩])).drop
      (cutOf (makeBox [⟨4, 4, 4, 1⟩, ⟨12, 4, 4, 1⟩, ⟨12, 12, 4, 2⟩]) + 1)))
    (by decide) (by decide)

/-! Evaluation of buildBins on small concrete shapes. -/

lemma histIdx_div1024 {r g b : ℕ} (hr : r ≤ 255) (hg : g ≤ 255) (hb : b ≤ 255) :
    histIdx r g b / 1024 = r / 8 := by
  unfold histIdx
  omega

lemma histIdx_div32 {r g b : ℕ} (hr : r ≤ 255) (hg : g ≤ 255) (hb : b ≤ 255) :
    histIdx r g b / 32 % 32 = g / 8 := by
  unfold histIdx
  omega

lemma histIdx_mod32 {r g b : ℕ} (hr : r ≤ 255) (hg : g ≤ 255) (hb : b ≤ 255) :
    histIdx r g b % 32 = b / 8 := by
  unfold histIdx
  omega

lemma histCount_quad (r g b a idx : ℕ) :
    histCount [r, g, b, a] (stepOf (List.length [r, g, b, a])) idx =
      if histIdx r g b = idx then 1 else 0 := by
  unfold histCount
  have hsamp : sampleIdxs (List.length [r, g, b, a]) (stepOf (List.length [r, g, b, a])) =
      [0] := by
    unfold sampleIdxs stepOf
    norm_num
  rw [hsamp, List.filter_singleton]
  have hred : (decide (histIdx ([r, g, b, a].getD (0 : ℕ) 0) ([r, g, b, a].getD (0 + 1) 0)
      ([r, g, b, a].getD (0 + 2) 0) = idx)) = decide (histIdx r g b = idx) := by
    norm_num
  rw [hred]
  by_cases h : histIdx r g b = idx
  · simp [h]
  · simp [h]

lemma binsF_quad (r g b a : ℕ) (hr : r ≤ 255) (hg : g ≤ 255) (hb : b ≤ 255) :
    ∀ j, binsF [r, g, b, a] j =
      if histIdx r g b = j then
        some ⟨r / 8 * 8 + 4, g / 8 * 8 + 4, b / 8 * 8 + 4, 1⟩
      else none := by
  intro j
  unfold binsF
  rw [histCount_quad]
  by_cases h : histIdx r g b = j
  · subst h
    simp
    rw [histIdx_div1024 hr hg hb, histIdx_div32 hr hg hb, histIdx_mod32 hr hg hb]
    exact ⟨rfl, rfl, rfl⟩
  · simp [h]

lemma buildBins_single (r g b a : ℕ) (hr : r ≤ 255) (hg : g ≤ 255) (hb : b ≤ 255) :
    buildBins [r, g, b, a] = [⟨r / 8 * 8 + 4, g / 8 * 8 + 4, b / 8 * 8 + 4, 1⟩] := by
  have hidx := histIdx_lt hr hg hb
  have hbf := binsF_quad r g b a hr hg hb
  rw [buildBins_eq_support [r, g, b, a] [histIdx r g b]
    (List.sorted_singleton _)
    (by
      intro j
      rw [hbf j]
      by_cases h : histIdx r g b = j
      · subst h
        simp [hidx]
      · simp [h]
        intro hcon
        exact absurd hcon.symm h)]
  rw [List.filterMap_cons, hbf (histIdx r g b), if_pos rfl]
  rfl

/-! C8: empty bin sets and the black fallback. -/

lemma buildBins_nil : buildBins [] = [] :=
  List.filterMap_eq_nil_iff.2 fun a _ => rfl

/-- C8 counterexample: a 1-by-1 image whose single pixel is fully transparent
(alpha 0). The histogram ignores alpha, so the bin set is NOT empty, and the
returned palette is the pixel's bin-center color, not the black fallback. -/
theorem C8_counterexample :
    buildBins [255, 255, 255, 0] ≠ [] ∧
      (quantizeImportantColors [255, 255, 255, 0] 1 1 1 rngHalf).1 = [(252, 252, 252)] ∧
      (quantizeImportantColors [255, 255, 255, 0] 1 1 1 rngHalf).1 ≠ [(0, 0, 0)] := by
  have h1 : buildBins [255, 255, 255, 0] = [⟨252, 252, 252, 1⟩] := by
    have := buildBins_single 255 255 255 0 (by omega) (by omega) (by omega)
    simpa using this
  have hb : buildBins [255, 255, 255, 0] ≠ [] := by
    rw [h1]
    simp
  have hpal : (quantizeImportantColors [255, 255, 255, 0] 1 1 1 rngHalf).1 =
      [(252, 252, 252)] := by
    rw [quantizeImportantColors_eq [255, 255, 255, 0] 1 1 1 rngHalf hb]
    show palFast [255, 255, 255, 0] 1 rngHalf = [(252, 252, 252)]
    unfold palFast palette0Of boxesOf
    rw [h1]
    decide
  refine ⟨hb, hpal, ?_⟩
  rw [hpal]
  simp

/-- C8 amended: only a zero-area image (an empty buffer) yields an empty bin
set, and there the operation returns the degenerate black palette [(0,0,0)]
and the zero-filled output buffer, without any failure. (The histogram never
inspects alpha, so an image with zero opaque pixels but positive area goes
through the normal path instead — see the counterexample.) -/
theorem C8_empty_black_fallback (data : List ℕ) (width height k : ℕ) (rng : ℕ → ℚ)
    (hdata : data = []) :
    buildBins data = [] ∧
      quantizeImportantColors data width height k rng =
        ([(0, 0, 0)], List.replicate (width * height * 4) 0) := by
  subst hdata
  refine ⟨buildBins_nil, ?_⟩
  unfold quantizeImportantColors
  rw [if_pos buildBins_nil]

/-- Witness for C8's amended statement at a zero-area image. -/
theorem C8_empty_black_fallback_witness :
    buildBins [] = [] ∧
      quantizeImportantColors [] 0 0 3 rngHalf = ([(0, 0, 0)], List.replicate (0 * 0 * 4) 0) :=
  C8_empty_black_fallback [] 0 0 3 rngHalf rfl

/-! C7: the nearest-palette mapper is not idempotent in general. -/

/-- C7 counterexample: a 1-by-1 already-quantized image (its pixel's RGB
(0,0,0) is an entry of the palette, alpha is 255) remapped with that same
palette. The pixel's reduced bin has center (4,4,4), which is strictly closer
to the other entry (3,2,2) than to (0,0,0), so the remap changes the buffer. -/
theorem C7_counterexample :
    ((0 : ℕ), (0 : ℕ), (0 : ℕ)) ∈
        [((0 : ℕ), (0 : ℕ), (0 : ℕ)), ((3 : ℕ), (2 : ℕ), (2 : ℕ))] ∧
      ([0, 0, 0, 255] : List ℕ).getD 3 0 = 255 ∧
      remapData [0, 0, 0, 255] [(0, 0, 0), (3, 2, 2)] = [3, 2, 2, 255] ∧
      remapData [0, 0, 0, 255] [(0, 0, 0), (3, 2, 2)] ≠ [0, 0, 0, 255] := by
  decide

/-- C7 amended: the mapper is the identity on buffers whose pixels carry
bin-center colors (every channel congruent to 4 mod 8, at most 255) that are
entries of the palette, with alpha 255 — this is the situation in which the
claim's premise "already quantized, every pixel's RGB in P" additionally pins
each pixel to its own reduced bin's representative, and then remapping with
the same palette returns the identical buffer. -/
theorem C7_remap_identity (data : List ℕ) (P : List Color) (hlen : data.length % 4 = 0)
    (hpix : ∀ p, p < data.length / 4 →
      (data.getD (4 * p) 0, data.getD (4 * p + 1) 0, data.getD (4 * p + 2) 0) ∈ P ∧
        data.getD (4 * p) 0 % 8 = 4 ∧ data.getD (4 * p + 1) 0 % 8 = 4 ∧
        data.getD (4 * p + 2) 0 % 8 = 4 ∧ data.getD (4 * p) 0 ≤ 255 ∧
        data.getD (4 * p + 1) 0 ≤ 255 ∧ data.getD (4 * p + 2) 0 ≤ 255 ∧
        data.getD (4 * p + 3) 0 = 255) :
    remapData data P = data := by
  have hlen2 : (remapData data P).length = data.length := by
    rw [remapData_length]
    omega
  have hgetD : ∀ i, i < data.length → (remapData data P).getD i 0 = data.getD i 0 := by
    intro i hi
    have hdecomp : i = 4 * (i / 4) + i % 4 := by omega
    have hp : i / 4 < data.length / 4 := by omega
    have hq : i % 4 < 4 := by omega
    obtain ⟨hmem, hm1, hm2, hm3, hb1, hb2, hb3, ha⟩ := hpix (i / 4) hp
    have hrc : remapColor data P (4 * (i / 4)) =
        (data.getD (4 * (i / 4)) 0, data.getD (4 * (i / 4) + 1) 0,
          data.getD (4 * (i / 4) + 2) 0) := by
      unfold remapColor nearestLUT
      rw [show binColorOf (histIdx (data.getD (4 * (i / 4)) 0)
          (data.getD (4 * (i / 4) + 1) 0) (data.getD (4 * (i / 4) + 2) 0)) =
          (data.getD (4 * (i / 4)) 0, data.getD (4 * (i / 4) + 1) 0,
            data.getD (4 * (i / 4) + 2) 0) from ?_]
      · exact nearestIdx_getD_eq_of_mem hmem
      · rw [binColorOf_histIdx hb1 hb2 hb3]
        simp only [Prod.mk.injEq]
        refine ⟨?_, ?_, ?_⟩ <;> omega
    have hpx := remapData_pixel data P (i / 4) (by omega)
    rcases (by omega : i % 4 = 0 ∨ i % 4 = 1 ∨ i % 4 = 2 ∨ i % 4 = 3) with h4 | h4 | h4 | h4
    · rw [hdecomp, h4, Nat.add_zero, hpx.1, hrc]
    · rw [hdecomp, h4, hpx.2.1, hrc]
    · rw [hdecomp, h4, hpx.2.2.1, hrc]
    · rw [hdecomp, h4, hpx.2.2.2, ha.symm, hdecomp, h4]
  apply List.ext_getElem hlen2
  intro i h1 h2
  have := hgetD i (by omega)
  rw [List.getD_eq_getElem _ _ h1, List.getD_eq_getElem _ _ h2] at this
  exact this

/-- Witness for C7's amended statement: a 2-pixel bin-center image remapped
with its own palette. -/
theorem C7_remap_identity_witness :
    remapData [4, 4, 4, 255, 252, 4, 4, 255]
        [((4 : ℕ), (4 : ℕ), (4 : ℕ)), ((252 : ℕ), (4 : ℕ), (4 : ℕ))] =
      [4, 4, 4, 255, 252, 4, 4, 255] :=
  C7_remap_identity [4, 4, 4, 255, 252, 4, 4, 255]
    [((4 : ℕ), (4 : ℕ), (4 : ℕ)), ((252 : ℕ), (4 : ℕ), (4 : ℕ))] (by decide)
    (by decide)

/-! C5: palettes for images with few distinct colors. -/

lemma histCount_12 (c0 c1 c2 c3 c4 c5 c6 c7 c8 c9 c10 c11 idx : ℕ) :
    histCount [c0, c1, c2, c3, c4, c5, c6, c7, c8, c9, c10, c11]
        (stepOf (List.length [c0, c1, c2, c3, c4, c5, c6, c7, c8, c9, c10, c11])) idx =
      ((if histIdx c0 c1 c2 = idx then 1 else 0) +
          (if histIdx c4 c5 c6 = idx then 1 else 0)) +
        (if histIdx c8 c9 c10 = idx then 1 else 0) := by
  unfold histCount
  have hsamp : sampleIdxs (List.length [c0, c1, c2, c3, c4, c5, c6, c7, c8, c9, c10, c11])
      (stepOf (List.length [c0, c1, c2, c3, c4, c5, c6, c7, c8, c9, c10, c11])) =
      [0, 4, 8] := by
    unfold sampleIdxs stepOf
    norm_num
    rfl
  rw [hsamp, show ([0, 4, 8] : List ℕ) = [0] ++ [4] ++ [8] from rfl,
    List.filter_append, List.filter_append, List.length_append, List.length_append,
    List.filter_singleton, List.filter_singleton, List.filter_singleton]
  have h0 : (decide (histIdx ([c0, c1, c2, c3, c4, c5, c6, c7, c8, c9, c10, c11].getD (0 : ℕ) 0)
      ([c0, c1, c2, c3, c4, c5, c6, c7, c8, c9, c10, c11].getD (0 + 1) 0)
      ([c0, c1, c2, c3, c4, c5, c6, c7, c8, c9, c10, c11].getD (0 + 2) 0) = idx)) =
      decide (histIdx c0 c1 c2 = idx) := by norm_num
  have h1 : (decide (histIdx ([c0, c1, c2, c3, c4, c5, c6, c7, c8, c9, c10, c11].getD (4 : ℕ) 0)
      ([c0, c1, c2, c3, c4, c5, c6, c7, c8, c9, c10, c11].getD (4 + 1) 0)
      ([c0, c1, c2, c3, c4, c5, c6, c7, c8, c9, c10, c11].getD (4 + 2) 0) = idx)) =
      decide (histIdx c4 c5 c6 = idx) := by norm_num
  have h2 : (decide (histIdx ([c0, c1, c2, c3, c4, c5, c6, c7, c8, c9, c10, c11].getD (8 : ℕ) 0)
      ([c0, c1, c2, c3, c4, c5, c6, c7, c8, c9, c10, c11].getD (8 + 1) 0)
      ([c0, c1, c2, c3, c4, c5, c6, c7, c8, c9, c10, c11].getD (8 + 2) 0) = idx)) =
      decide (histIdx c8 c9 c10 = idx) := by norm_num
  rw [h0, h1, h2]
  by_cases e0 : histIdx c0 c1 c2 = idx <;> by_cases e1 : histIdx c4 c5 c6 = idx <;>
    by_cases e2 : histIdx c8 c9 c10 = idx <;> simp [e0, e1, e2]

lemma buildBins_data3C5 :
    buildBins [0, 0, 0, 255, 1, 0, 0, 255, 100, 0, 0, 255] =
      [⟨4, 4, 4, 2⟩, ⟨100, 4, 4, 1⟩] := by
  have hhc : ∀ idx, histCount [0, 0, 0, 255, 1, 0, 0, 255, 100, 0, 0, 255]
      (stepOf (List.length [0, 0, 0, 255, 1, 0, 0, 255, 100, 0, 0, 255])) idx =
      ((if 0 = idx then 1 else 0) + (if 0 = idx then 1 else 0)) +
        (if 12288 = idx then 1 else 0) := by
    intro idx
    rw [histCount_12]
    norm_num [histIdx]
  have hbf : ∀ j, binsF [0, 0, 0, 255, 1, 0, 0, 255, 100, 0, 0, 255] j =
      if 0 = j then some ⟨4, 4, 4, 2⟩
      else if 12288 = j then some ⟨100, 4, 4, 1⟩ else none := by
    intro j
    unfold binsF
    rw [hhc j]
    by_cases e0 : (0 : ℕ) = j
    · subst e0
      norm_num
    · by_cases e1 : (12288 : ℕ) = j
      · subst e1
        norm_num
      · simp [e0, e1]
  rw [buildBins_eq_support _ [0, 12288]
    (by norm_num)
    (by
      intro j
      rw [hbf j]
      by_cases e0 : (0 : ℕ) = j
      · subst e0
        simp
      · by_cases e1 : (12288 : ℕ) = j
        · subst e1
          simp
        · simp [e0, e1]
          omega)]
  rw [List.filterMap_cons, List.filterMap_cons, List.filterMap_nil,
    hbf 0, hbf 12288]
  norm_num

lemma buildBins_dataC5W :
    buildBins [0, 0, 0, 255, 100, 0, 0, 255, 200, 0, 0, 255] =
      [⟨4, 4, 4, 1⟩, ⟨100, 4, 4, 1⟩, ⟨204, 4, 4, 1⟩] := by
  have hhc : ∀ idx, histCount [0, 0, 0, 255, 100, 0, 0, 255, 200, 0, 0, 255]
      (stepOf (List.length [0, 0, 0, 255, 100, 0, 0, 255, 200, 0, 0, 255])) idx =
      ((if 0 = idx then 1 else 0) + (if 12288 = idx then 1 else 0)) +
        (if 25600 = idx then 1 else 0) := by
    intro idx
    rw [histCount_12]
    norm_num [histIdx]
  have hbf : ∀ j, binsF [0, 0, 0, 255, 100, 0, 0, 255, 200, 0, 0, 255] j =
      if 0 = j then some ⟨4, 4, 4, 1⟩
      else if 12288 = j then some ⟨100, 4, 4, 1⟩
      else if 25600 = j then some ⟨204, 4, 4, 1⟩ else none := by
    intro j
    unfold binsF
    rw [hhc j]
    by_cases e0 : (0 : ℕ) = j
    · subst e0
      norm_num
    · by_cases e1 : (12288 : ℕ) = j
      · subst e1
        norm_num
      · by_cases e2 : (25600 : ℕ) = j
        · subst e2
          norm_num
        · simp [e0, e1, e2]
  rw [buildBins_eq_support _ [0, 12288, 25600]
    (by norm_num)
    (by
      intro j
      rw [hbf j]
      by_cases e0 : (0 : ℕ) = j
      · subst e0
        simp
      · by_cases e1 : (12288 : ℕ) = j
        · subst e1
          simp
        · by_cases e2 : (25600 : ℕ) = j
          · subst e2
            simp
          · simp [e0, e1, e2]
            omega)]
  rw [List.filterMap_cons, List.filterMap_cons, List.filterMap_cons, List.filterMap_nil,
    hbf 0, hbf 12288, hbf 25600]
  norm_num

lemma length_le_length_flatMap_bins (boxes : List Box)
    (h : ∀ bx ∈ boxes, bx.bins ≠ []) :
    boxes.length ≤ (boxes.flatMap Box.bins).length := by
  induction boxes with
  | nil => simp
  | cons bx rest ih =>
    rw [List.flatMap_cons, List.length_append, List.length_cons]
    have h1 : 1 ≤ bx.bins.length :=
      List.length_pos.2 (h bx (by simp))
    have h2 := ih fun b hb => h b (by simp [hb])
    omega

/-- C5 counterexample: the 1-by-3 image with pixel colors (0,0,0), (1,0,0),
(100,0,0) — exactly 3 distinct colors — at k = 10. The colors (0,0,0) and
(1,0,0) fall into the same 5-bit histogram bin, so only 2 bins exist, the
box splitter can produce at most 2 boxes, and the refinement pass returns a
palette of length min k (max 2 bins) = 2, not 3. -/
theorem C5_counterexample :
    (extractPixels [0, 0, 0, 255, 1, 0, 0, 255, 100, 0, 0, 255]).dedup.length = 3 ∧
      (quantizeImportantColors [0, 0, 0, 255, 1, 0, 0, 255, 100, 0, 0, 255]
          3 1 10 rngHalf).1.length = 2 := by
  refine ⟨by decide, ?_⟩
  have hbb := buildBins_data3C5
  have hb : buildBins [0, 0, 0, 255, 1, 0, 0, 255, 100, 0, 0, 255] ≠ [] := by
    rw [hbb]
    simp
  rw [quantizeImportantColors_eq _ 3 1 10 rngHalf hb]
  have hproj : ∀ (a : List Color) (b : List ℕ), (a, b).1 = a := fun a b => rfl
  rw [hproj]
  unfold palFast
  have hp0 : (palette0Of [0, 0, 0, 255, 1, 0, 0, 255, 100, 0, 0, 255] 10).length = 1 := by
    unfold palette0Of boxesOf
    rw [hbb]
    decide
  have hcond : (palette0Of [0, 0, 0, 255, 1, 0, 0, 255, 100, 0, 0, 255] 10).length < 10 := by
    omega
  rw [if_pos hcond, hbb, refinePalette_length _ _ _ (by norm_num)]
  norm_num

/-- C5 amended: the under-determined case is governed by the number of
populated 5-bit histogram bins, not by the number of distinct pixel colors
(see the counterexample), and the refinement pass pads up to
min k (max 2 bins): for every image whose histogram has exactly 3 populated
bins, the fast quantizer at k = 10 returns a palette of length exactly 3. -/
theorem C5_three_bins (data : List ℕ) (rng : ℕ → ℚ)
    (h3 : (buildBins data).length = 3) :
    (palFast data 10 rng).length = 3 := by
  have hb : buildBins data ≠ [] := by
    intro h
    rw [h] at h3
    simp at h3
  obtain ⟨hperm, hwf, hlen, hne⟩ := boxesOf_spec data 10 (by omega) hb
  have hflat : ((boxesOf data 10).flatMap Box.bins).length = 3 := by
    rw [hperm.length_eq, h3]
  have hboxes : (boxesOf data 10).length ≤ 3 := by
    have := length_le_length_flatMap_bins (boxesOf data 10) fun bx hbx => (hwf bx hbx).2
    omega
  unfold palFast
  rw [if_pos (by rw [palette0Of_length]; omega), refinePalette_length _ _ _ (by omega), h3]
  omega

/-- Witness for C5's amended statement: a 1-by-3 image whose 3 colors land in
3 distinct histogram bins. -/
theorem C5_three_bins_witness :
    (palFast [0, 0, 0, 255, 100, 0, 0, 255, 200, 0, 0, 255] 10 rngHalf).length = 3 :=
  C5_three_bins [0, 0, 0, 255, 100, 0, 0, 255, 200, 0, 0, 255] rngHalf
    (by rw [buildBins_dataC5W]; rfl)

/-! C10: evaluation machinery for the exact quantizer's random steps. -/

lemma fstPair {α β : Type} (a : α) (b : β) : (a, b).1 = a := rfl

lemma sndPair {α β : Type} (a : α) (b : β) : (a, b).2 = b := rfl

/-- The random stream of the C10 counterexample run: draw 4 (the reseeding of
the third, empty cluster) is 5/6, every other draw is 0. -/
def rngC10 : ℕ → ℚ := fun i => if i = 4 then 5 / 6 else 0

lemma rngC10_valid : ∀ i, 0 ≤ rngC10 i ∧ rngC10 i < 1 := by
  intro i
  unfold rngC10
  by_cases h : i = 4
  · rw [if_pos h]
    norm_num
  · rw [if_neg h]
    norm_num

lemma roulettePickGo_zero (d : ℕ) (rest : List ℕ) (j : ℕ) :
    roulettePickGo 0 (d :: rest) 0 j = some j := by
  show (if (0 : ℚ) ≤ ((0 + d : ℕ) : ℚ) then some j
    else roulettePickGo 0 rest (0 + d) (j + 1)) = some j
  rw [if_pos (by positivity)]

/-- A seeding round whose roulette target is 0 picks the first pixel. -/
lemma initGo_pick0 (P : List Color) (rng : ℕ → ℚ) (n c : ℕ) (cents : List Color)
    (p0 : Color) (tl : List Color) (hP : P = p0 :: tl)
    (ht : rng c * (((P.map fun p => minDistSq p cents).sum : ℕ) : ℚ) = 0) :
    initGo P rng (n + 1) c cents = initGo P rng n (c + 1) (cents ++ [p0]) := by
  subst hP
  show (match roulettePickGo
      (rng c * ((((p0 :: tl).map fun p => minDistSq p cents).sum : ℕ) : ℚ))
      ((p0 :: tl).map fun p => minDistSq p cents) 0 0 with
    | some j => initGo (p0 :: tl) rng n (c + 1) (cents ++ [(p0 :: tl).getD j (0, 0, 0)])
    | none => initGo (p0 :: tl) rng n (c + 1) cents) =
    initGo (p0 :: tl) rng n (c + 1) (cents ++ [p0])
  rw [ht, List.map_cons, roulettePickGo_zero]
  rfl

lemma initGo_zero (P : List Color) (rng : ℕ → ℚ) (c : ℕ) (cents : List Color) :
    initGo P rng 0 c cents = (cents, c) := rfl

/-- An update step for a cluster with no assigned pixels reseeds from the
pixel picked by the current draw. -/
lemma updStep_empty (P : List Color) (A : List ℕ) (rng : ℕ → ℚ) (st : List Color × ℕ)
    (i j : ℕ)
    (ha : (((P.zip A).filter fun pa => decide (pa.2 = i)).map fun pa => pa.1) = [])
    (hj : Nat.floor (rng st.2 * (P.length : ℚ)) = j) :
    updStep P A rng st i = (st.1 ++ [P.getD j (0, 0, 0)], st.2 + 1) := by
  simp only [updStep]
  rw [ha, hj]
  norm_num

lemma updateCentroids_three (P : List Color) (A : List ℕ) (rng : ℕ → ℚ) (c : ℕ) :
    updateCentroids P A 3 rng c =
      updStep P A rng (updStep P A rng (updStep P A rng ([], c) 0) 1) 2 := rfl

/-- A Lloyd iteration whose assignment pass makes no change exits the loop,
but still runs its update pass. -/
lemma lloydGo_exit (P : List Color) (k : ℕ) (rng : ℕ → ℚ) (fuel : ℕ) (A : List ℕ)
    (C : List Color) (c : ℕ)
    (hA : (P.map fun p => findClosestCentroid p C) = A) :
    lloydGo P k rng (fuel + 1) A C c =
      (A, (updateCentroids P A k rng c).1 ++ C.drop k, (updateCentroids P A k rng c).2) := by
  show (if (P.map fun p => findClosestCentroid p C) = A then
      ((P.map fun p => findClosestCentroid p C),
        (updateCentroids P (P.map fun p => findClosestCentroid p C) k rng c).1 ++ C.drop k,
        (updateCentroids P (P.map fun p => findClosestCentroid p C) k rng c).2)
    else lloydGo P k rng fuel (P.map fun p => findClosestCentroid p C)
      ((updateCentroids P (P.map fun p => findClosestCentroid p C) k rng c).1 ++ C.drop k)
      (updateCentroids P (P.map fun p => findClosestCentroid p C) k rng c).2) =
    (A, (updateCentroids P A k rng c).1 ++ C.drop k, (updateCentroids P A k rng c).2)
  rw [hA, if_pos rfl]

/-- The C10 counterexample image: 3 pixels, colors (0,0,0), (0,0,0), (8,0,0) —
2 distinct colors. -/
def dataC10 : List ℕ := [0, 0, 0, 255, 0, 0, 0, 255, 8, 0, 0, 255]

def pixC10 : List Color := [(0, 0, 0), (0, 0, 0), (8, 0, 0)]

lemma init_C10 :
    initializeCentroidsKMeansPlusPlus pixC10 3 rngC10 =
      ([(0, 0, 0), (0, 0, 0), (0, 0, 0)], 3) := by
  unfold initializeCentroidsKMeansPlusPlus
  have hfl0 : Nat.floor (rngC10 0 * (pixC10.length : ℚ)) = 0 := by
    norm_num [rngC10]
  rw [hfl0]
  show initGo pixC10 rngC10 2 1 [(0, 0, 0)] = ([(0, 0, 0), (0, 0, 0), (0, 0, 0)], 3)
  have h1 : initGo pixC10 rngC10 2 1 [(0, 0, 0)] =
      initGo pixC10 rngC10 1 2 [(0, 0, 0), (0, 0, 0)] :=
    initGo_pick0 pixC10 rngC10 1 1 [(0, 0, 0)] (0, 0, 0) [(0, 0, 0), (8, 0, 0)] rfl
      (by norm_num [rngC10])
  have h2 : initGo pixC10 rngC10 1 2 [(0, 0, 0), (0, 0, 0)] =
      initGo pixC10 rngC10 0 3 [(0, 0, 0), (0, 0, 0), (0, 0, 0)] :=
    initGo_pick0 pixC10 rngC10 0 2 [(0, 0, 0), (0, 0, 0)] (0, 0, 0) [(0, 0, 0), (8, 0, 0)] rfl
      (by norm_num [rngC10])
  rw [h1, h2, initGo_zero]

lemma upd_C10 :
    updateCentroids pixC10 (List.replicate 3 0) 3 rngC10 3 =
      ([(3, 0, 0), (0, 0, 0), (8, 0, 0)], 5) := by
  rw [updateCentroids_three]
  have hu0 : updStep pixC10 (List.replicate 3 0) rngC10 ([], 3) 0 = ([(3, 0, 0)], 3) := by
    decide
  have hu1 : updStep pixC10 (List.replicate 3 0) rngC10 ([(3, 0, 0)], 3) 1 =
      ([(3, 0, 0), (0, 0, 0)], 4) :=
    updStep_empty pixC10 (List.replicate 3 0) rngC10 ([(3, 0, 0)], 3) 1 0 (by decide)
      (by norm_num [rngC10])
  have hu2 : updStep pixC10 (List.replicate 3 0) rngC10 ([(3, 0, 0), (0, 0, 0)], 4) 2 =
      ([(3, 0, 0), (0, 0, 0), (8, 0, 0)], 5) :=
    updStep_empty pixC10 (List.replicate 3 0) rngC10 ([(3, 0, 0), (0, 0, 0)], 4) 2 2
      (by decide)
      (by
        show Nat.floor (rngC10 4 * (pixC10.length : ℚ)) = 2
        rw [show rngC10 4 * (pixC10.length : ℚ) = 5 / 2 by norm_num [rngC10, pixC10]]
        rw [Nat.floor_eq_iff (by norm_num)]
        norm_num)
  rw [hu0, hu1, hu2]

lemma lloydResult_C10 :
    lloydResult pixC10 3 10 rngC10 =
      ([0, 0, 0], [(3, 0, 0), (0, 0, 0), (8, 0, 0)], 5) := by
  unfold lloydResult
  rw [init_C10, fstPair, sndPair, show pixC10.length = 3 from rfl]
  have hA : (pixC10.map fun p =>
      findClosestCentroid p [(0, 0, 0), (0, 0, 0), (0, 0, 0)]) = List.replicate 3 0 := by
    decide
  rw [show lloydGo pixC10 3 rngC10 10 (List.replicate 3 0)
      [(0, 0, 0), (0, 0, 0), (0, 0, 0)] 3 =
      (List.replicate 3 0,
        (updateCentroids pixC10 (List.replicate 3 0) 3 rngC10 3).1 ++
          ([(0, 0, 0), (0, 0, 0), (0, 0, 0)] : List Color).drop 3,
        (updateCentroids pixC10 (List.replicate 3 0) 3 rngC10 3).2) from
    lloydGo_exit pixC10 3 rngC10 9 (List.replicate 3 0) [(0, 0, 0), (0, 0, 0), (0, 0, 0)] 3 hA]
  rw [upd_C10, fstPair, sndPair]
  decide

/-- C10 counterexample for the duplicates clause: a 3-pixel image with only 2
distinct colors at k = 3 under the draw stream rngC10 returns a palette of 3
pairwise-distinct entries: the averaged centroid (3,0,0) of the initial single
cluster plus two random reseeds of the empty clusters — no duplicates, and a
palette color that occurs nowhere in the image. -/
theorem C10_counterexample :
    (extractPixels dataC10).dedup.length = 2 ∧
      (kMeansQuantize dataC10 3 1 3 10 rngC10).1 = [(3, 0, 0), (0, 0, 0), (8, 0, 0)] ∧
      (kMeansQuantize dataC10 3 1 3 10 rngC10).1.Nodup := by
  have hex : extractPixels dataC10 = pixC10 := by decide
  have hq : (kMeansQuantize dataC10 3 1 3 10 rngC10).1 =
      [(3, 0, 0), (0, 0, 0), (8, 0, 0)] := by
    unfold kMeansQuantize
    rw [fstPair, hex, lloydResult_C10, sndPair, fstPair]
  refine ⟨by decide, hq, ?_⟩
  rw [hq]
  decide

/-- C10 amended: the palette of the exact quantizer always has exactly k
entries for a non-empty image and draws in [0,1) — it is never shortened; but
the k entries need not contain duplicates when the image has fewer than k
distinct colors (see the counterexample: averaging and random reseeding can
make all k entries distinct). -/
theorem C10_palette_exact_k (data : List ℕ) (width height k maxIterations : ℕ)
    (rng : ℕ → ℚ) (hd : data ≠ []) (hk : 1 ≤ k) (hr : ∀ i, 0 ≤ rng i ∧ rng i < 1) :
    (kMeansQuantize data width height k maxIterations rng).1.length = k :=
  kMeansQuantize_palette_length data width height k maxIterations rng hd hk hr

/-- Witness for C10's amended statement: a 1-pixel image at k = 5 still gets a
5-entry palette. -/
theorem C10_palette_exact_k_witness :
    (kMeansQuantize [10, 20, 30, 255] 1 1 5 10 rngHalf).1.length = 5 :=
  C10_palette_exact_k [10, 20, 30, 255] 1 1 5 10 rngHalf (by decide) (by decide) rngHalf_valid

/-! C6: evaluation machinery for one-pixel images. -/

lemma foldl_min_zero {α : Type} (f : α → ℕ) : ∀ tl : List α,
    tl.foldl (fun m e => min m (f e)) 0 = 0 := by
  intro tl
  induction tl with
  | nil => rfl
  | cons x rest ih =>
    rw [List.foldl_cons, show min 0 (f x) = 0 from Nat.zero_min _]
    exact ih

lemma minDistSq_head_self (p : Color) (tl : List Color) : minDistSq p (p :: tl) = 0 := by
  show tl.foldl (fun m e => min m (sqDist p e)) (sqDist p p) = 0
  rw [sqDist_self]
  exact foldl_min_zero _ tl

lemma argminGo_keep_zero {α : Type} (f : α → ℕ) : ∀ (l : List α) (i j : ℕ) (y : α),
    argminGo f l i (some (j, y, 0)) = some (j, y, 0) := by
  intro l
  induction l with
  | nil => intro i j y; rfl
  | cons x rest ih =>
    intro i j y
    show (if f x < 0 then argminGo f rest (i + 1) (some (i, x, f x))
      else argminGo f rest (i + 1) (some (j, y, 0))) = some (j, y, 0)
    rw [if_neg (by omega), ih]

/-- The first-index-wins argmin scan returns 0 whenever the head already
attains value 0 (no later strict improvement is possible). -/
lemma argminIdx_zero_head {α : Type} (f : α → ℕ) (x : α) (tl : List α) (hx : f x = 0) :
    argminIdx f (x :: tl) = 0 := by
  unfold argminIdx
  rw [show argminGo f (x :: tl) 0 none = argminGo f tl 1 (some (0, x, f x)) from rfl, hx,
    argminGo_keep_zero]

lemma kppPickIdx_single (t : ℚ) (d : ℕ) : kppPickIdx t [d] 0 0 = 0 := by
  show (if t ≤ ((0 + d : ℕ) : ℚ) then 0 else kppPickIdx t [] (0 + d) 1) = 0
  by_cases h : t ≤ ((0 + d : ℕ) : ℚ)
  · rw [if_pos h]
  · rw [if_neg h]
    rfl

lemma firstPick_cons_le (bn : Bin) (tl : List Bin) (t : ℚ)
    (h : t ≤ ((0 + bn.count : ℕ) : ℚ)) :
    firstPick (bn :: tl) t = [(bn.r, bn.g, bn.b)] := by
  show (if t ≤ ((0 + bn.count : ℕ) : ℚ) then [(bn.r, bn.g, bn.b)]
    else firstPickGo t tl (0 + bn.count)) = [(bn.r, bn.g, bn.b)]
  rw [if_pos h]

/-- Named pieces of one k-means++ roulette round over bins (definitionally the
lets of kppLoop's body). -/
def kppDists (bins : List Bin) (cents : List Color) : List ℕ :=
  bins.map fun b => minDistSq (b.r, b.g, b.b) cents * b.count

def kppT (bins : List Bin) (cents : List Color) (rng : ℕ → ℚ) (c : ℕ) : ℚ :=
  rng c * (((if (kppDists bins cents).sum = 0 then 1 else (kppDists bins cents).sum) : ℕ) : ℚ)

def kppBp (bins : List Bin) (cents : List Color) (rng : ℕ → ℚ) (c : ℕ) : Bin :=
  bins.getD (kppPickIdx (kppT bins cents rng c) (kppDists bins cents) 0 0) default

lemma kppLoop_succ_lt (bins : List Bin) (targetK : ℕ) (rng : ℕ → ℚ) (fuel c : ℕ)
    (cents : List Color) (hlt : cents.length < targetK) :
    kppLoop bins targetK rng (fuel + 1) c cents =
      kppLoop bins targetK rng fuel (c + 1)
        (cents ++ [((kppBp bins cents rng c).r, (kppBp bins cents rng c).g,
          (kppBp bins cents rng c).b)]) := by
  show (if cents.length < targetK then
      kppLoop bins targetK rng fuel (c + 1)
        (cents ++ [((kppBp bins cents rng c).r, (kppBp bins cents rng c).g,
          (kppBp bins cents rng c).b)])
    else cents) =
    kppLoop bins targetK rng fuel (c + 1)
      (cents ++ [((kppBp bins cents rng c).r, (kppBp bins cents rng c).g,
        (kppBp bins cents rng c).b)])
  rw [if_pos hlt]

lemma kppLoop_succ_ge (bins : List Bin) (targetK : ℕ) (rng : ℕ → ℚ) (fuel c : ℕ)
    (cents : List Color) (hge : ¬cents.length < targetK) :
    kppLoop bins targetK rng (fuel + 1) c cents = cents := by
  show (if cents.length < targetK then
      kppLoop bins targetK rng fuel (c + 1)
        (cents ++ [((kppBp bins cents rng c).r, (kppBp bins cents rng c).g,
          (kppBp bins cents rng c).b)])
    else cents) = cents
  rw [if_neg hge]

lemma kppDists_single (x1 x2 x3 : ℕ) (tl : List Color) :
    kppDists [⟨x1, x2, x3, 1⟩] ((x1, x2, x3) :: tl) = [0] := by
  unfold kppDists
  rw [show (([⟨x1, x2, x3, 1⟩] : List Bin).map fun b =>
      minDistSq (b.r, b.g, b.b) ((x1, x2, x3) :: tl) * b.count) =
    [minDistSq (x1, x2, x3) ((x1, x2, x3) :: tl) * 1] from rfl, minDistSq_head_self]

lemma kppBp_single (x1 x2 x3 : ℕ) (rng : ℕ → ℚ) (c : ℕ) (tl : List Color) :
    kppBp [⟨x1, x2, x3, 1⟩] ((x1, x2, x3) :: tl) rng c = ⟨x1, x2, x3, 1⟩ := by
  unfold kppBp kppT
  rw [kppDists_single]
  rw [kppPickIdx_single]
  rfl

/-- An update step for a cluster whose assigned pixels are exactly one pixel
keeps that pixel as the centroid (mean of a singleton). -/
lemma updStep_single (P : List Color) (A : List ℕ) (rng : ℕ → ℚ) (st : List Color × ℕ)
    (i : ℕ) (q : Color)
    (ha : (((P.zip A).filter fun pa => decide (pa.2 = i)).map fun pa => pa.1) = [q]) :
    updStep P A rng st i = (st.1 ++ [q], st.2) := by
  simp only [updStep]
  rw [ha]
  norm_num [jsRound_one]

lemma updateCentroids_five (P : List Color) (A : List ℕ) (rng : ℕ → ℚ) (c : ℕ) :
    updateCentroids P A 5 rng c =
      updStep P A rng (updStep P A rng (updStep P A rng (updStep P A rng
        (updStep P A rng ([], c) 0) 1) 2) 3) 4 := rfl

lemma binAssign_self (x1 x2 x3 cnt : ℕ) (tl : List Color) :
    binAssign ((x1, x2, x3) :: tl) ⟨x1, x2, x3, cnt⟩ = 0 := by
  unfold binAssign
  apply argminIdx_zero_head
  show sqDist (x1, x2, x3) (x1, x2, x3) = 0
  exact sqDist_self _

/-- One weighted Lloyd step over a single bin with two identical centroids at
the bin's color is a fixed point: cluster 0 keeps the bin's (weighted mean)
color, cluster 1 is empty and keeps its current centroid. -/
lemma lloydStep_single_bin (x1 x2 x3 : ℕ) :
    lloydStep [⟨x1, x2, x3, 1⟩] [(x1, x2, x3), (x1, x2, x3)] =
      [(x1, x2, x3), (x1, x2, x3)] := by
  have hd0 := binAssign_self x1 x2 x3 1 [(x1, x2, x3)]
  have hf0 : (([⟨x1, x2, x3, 1⟩] : List Bin).filter fun b =>
      decide (binAssign [(x1, x2, x3), (x1, x2, x3)] b = 0)) = [⟨x1, x2, x3, 1⟩] := by
    simp [List.filter_singleton, hd0]
  have hf1 : (([⟨x1, x2, x3, 1⟩] : List Bin).filter fun b =>
      decide (binAssign [(x1, x2, x3), (x1, x2, x3)] b = 1)) = [] := by
    simp [List.filter_singleton, hd0]
  unfold lloydStep
  rw [show List.range ([((x1 : ℕ), (x2 : ℕ), (x3 : ℕ)), (x1, x2, x3)] : List Color).length =
    [0, 1] from rfl]
  simp only [List.map_cons, List.map_nil]
  rw [hf0, hf1]
  rw [show sumCounts [(⟨x1, x2, x3, 1⟩ : Bin)] = 1 from rfl,
    show sumCounts ([] : List Bin) = 0 from rfl]
  norm_num [jsRound_one]

/-- The refinement pass on a single bin of weight 1: targetK = min 5 (max 2 1)
= 2, the seeding puts the bin's color twice, and the Lloyd steps fix it. -/
lemma refinePalette_single_bin (x1 x2 x3 : ℕ) (rng : ℕ → ℚ)
    (hrng : ∀ i, 0 ≤ rng i ∧ rng i < 1) :
    refinePalette [⟨x1, x2, x3, 1⟩] 5 rng = [(x1, x2, x3), (x1, x2, x3)] := by
  have hfp : firstPick [⟨x1, x2, x3, 1⟩]
      (rng 0 * ((sumCounts [⟨x1, x2, x3, 1⟩] : ℕ) : ℚ)) = [(x1, x2, x3)] := by
    have h1 : rng 0 * ((sumCounts [(⟨x1, x2, x3, 1⟩ : Bin)] : ℕ) : ℚ) ≤
        ((0 + (⟨x1, x2, x3, 1⟩ : Bin).count : ℕ) : ℚ) := by
      show rng 0 * ((1 : ℕ) : ℚ) ≤ ((1 : ℕ) : ℚ)
      push_cast
      rw [mul_one]
      exact le_of_lt (hrng 0).2
    exact firstPick_cons_le _ _ _ h1
  show lloydStep [⟨x1, x2, x3, 1⟩] (lloydStep [⟨x1, x2, x3, 1⟩] (lloydStep [⟨x1, x2, x3, 1⟩]
      (kppLoop [⟨x1, x2, x3, 1⟩] (min 5 (max 2 ([⟨x1, x2, x3, 1⟩] : List Bin).length)) rng
        (min 5 (max 2 ([⟨x1, x2, x3, 1⟩] : List Bin).length)) 1
        (firstPick [⟨x1, x2, x3, 1⟩] (rng 0 * ((sumCounts [⟨x1, x2, x3, 1⟩] : ℕ) : ℚ)))))) =
    [(x1, x2, x3), (x1, x2, x3)]
  rw [show min 5 (max 2 ([⟨x1, x2, x3, 1⟩] : List Bin).length) = 2 from rfl, hfp]
  have hk1 : kppLoop [⟨x1, x2, x3, 1⟩] 2 rng 2 1 [(x1, x2, x3)] =
      kppLoop [⟨x1, x2, x3, 1⟩] 2 rng 1 2 [(x1, x2, x3), (x1, x2, x3)] := by
    have hstep := kppLoop_succ_lt [⟨x1, x2, x3, 1⟩] 2 rng 1 1 [(x1, x2, x3)] (by norm_num)
    rw [kppBp_single] at hstep
    exact hstep
  have hk2 : kppLoop [⟨x1, x2, x3, 1⟩] 2 rng 1 2 [(x1, x2, x3), (x1, x2, x3)] =
      [(x1, x2, x3), (x1, x2, x3)] :=
    kppLoop_succ_ge [⟨x1, x2, x3, 1⟩] 2 rng 0 2 [(x1, x2, x3), (x1, x2, x3)] (by norm_num)
  rw [hk1, hk2, lloydStep_single_bin, lloydStep_single_bin, lloydStep_single_bin]

lemma chooseBest_single (x1 x2 x3 : ℕ) :
    chooseBest [makeBox [⟨x1, x2, x3, 1⟩]] = none := by
  unfold chooseBest
  rw [show chooseBestGo [makeBox [⟨x1, x2, x3, 1⟩]] 0 none = chooseBestGo [] 1 none from ?_]
  · rfl
  · show (if 1 < (makeBox [⟨x1, x2, x3, 1⟩]).bins.length then
        chooseBestGo [] 1 (some (0, boxRangeSum (makeBox [⟨x1, x2, x3, 1⟩]),
          (makeBox [⟨x1, x2, x3, 1⟩]).count))
      else chooseBestGo [] 1 none) = chooseBestGo [] 1 none
    rw [if_neg (by rw [makeBox_bins]; norm_num)]

/-- The split loop never splits a single-bin box (no eligible box). -/
lemma splitLoopGo_single (x1 x2 x3 : ℕ) :
    splitLoopGo 5 5 [makeBox [⟨x1, x2, x3, 1⟩]] = [makeBox [⟨x1, x2, x3, 1⟩]] := by
  show (if ([makeBox [⟨x1, x2, x3, 1⟩]] : List Box).length < 5 then
      match chooseBest [makeBox [⟨x1, x2, x3, 1⟩]] with
      | none => [makeBox [⟨x1, x2, x3, 1⟩]]
      | some i =>
        match splitBox ([makeBox [⟨x1, x2, x3, 1⟩]].getD i default) with
        | none => [makeBox [⟨x1, x2, x3, 1⟩]].eraseIdx i ++
            [[makeBox [⟨x1, x2, x3, 1⟩]].getD i default]
        | some (l, r) => splitLoopGo 4 5 ([makeBox [⟨x1, x2, x3, 1⟩]].eraseIdx i ++ [l, r])
    else [makeBox [⟨x1, x2, x3, 1⟩]]) = [makeBox [⟨x1, x2, x3, 1⟩]]
  rw [if_pos (by norm_num), chooseBest_single]

/-- The fast quantizer on a 1-by-1 image: the single pixel populates one bin
with the center color (r/8*8+4, g/8*8+4, b/8*8+4); the box cannot split, the
refinement pass pads that center color to a length-2 palette, and the output
pixel is the bin-center color with alpha 255 — not the input pixel. -/
lemma fast1x1 (r g b a : ℕ) (hr : r ≤ 255) (hg : g ≤ 255) (hb : b ≤ 255)
    (rng : ℕ → ℚ) (hrng : ∀ i, 0 ≤ rng i ∧ rng i < 1) :
    quantizeImportantColors [r, g, b, a] 1 1 5 rng =
      ([(r / 8 * 8 + 4, g / 8 * 8 + 4, b / 8 * 8 + 4),
        (r / 8 * 8 + 4, g / 8 * 8 + 4, b / 8 * 8 + 4)],
       [r / 8 * 8 + 4, g / 8 * 8 + 4, b / 8 * 8 + 4, 255]) := by
  have hbb := buildBins_single r g b a hr hg hb
  have hbne : buildBins [r, g, b, a] ≠ [] := by
    rw [hbb]
    simp
  rw [quantizeImportantColors_eq _ 1 1 5 rng hbne]
  have hsmp : sampleIdxs (List.length [r, g, b, a]) 4 = [0] := by
    unfold sampleIdxs
    norm_num
  have hpal : palFast [r, g, b, a] 5 rng =
      [(r / 8 * 8 + 4, g / 8 * 8 + 4, b / 8 * 8 + 4),
       (r / 8 * 8 + 4, g / 8 * 8 + 4, b / 8 * 8 + 4)] := by
    unfold palFast
    have hp0 : (palette0Of [r, g, b, a] 5).length = 1 := by
      unfold palette0Of boxesOf
      rw [hbb, splitLoopGo_single]
      rfl
    have hcond : (palette0Of [r, g, b, a] 5).length < 5 := by omega
    rw [if_pos hcond, hbb, refinePalette_single_bin _ _ _ rng hrng]
  have hrc : remapColor [r, g, b, a]
      [(r / 8 * 8 + 4, g / 8 * 8 + 4, b / 8 * 8 + 4),
       (r / 8 * 8 + 4, g / 8 * 8 + 4, b / 8 * 8 + 4)] 0 =
      (r / 8 * 8 + 4, g / 8 * 8 + 4, b / 8 * 8 + 4) := by
    unfold remapColor nearestLUT
    rw [show ([r, g, b, a] : List ℕ).getD 0 0 = r from rfl,
      show ([r, g, b, a] : List ℕ).getD (0 + 1) 0 = g from rfl,
      show ([r, g, b, a] : List ℕ).getD (0 + 2) 0 = b from rfl,
      binColorOf_histIdx hr hg hb]
    exact nearestIdx_getD_eq_of_mem (by simp)
  have hout : remapData [r, g, b, a]
      [(r / 8 * 8 + 4, g / 8 * 8 + 4, b / 8 * 8 + 4),
       (r / 8 * 8 + 4, g / 8 * 8 + 4, b / 8 * 8 + 4)] =
      [r / 8 * 8 + 4, g / 8 * 8 + 4, b / 8 * 8 + 4, 255] := by
    unfold remapData
    rw [hsmp, List.flatMap_cons, List.flatMap_nil, hrc, List.append_nil]
  rw [hpal, hout]

/-- The exact quantizer on a 1-by-1 image at k = 5: every k-means++ round and
every empty-cluster reseed picks the only pixel, so the palette is 5 copies of
the pixel's color and the output is the pixel with alpha forced to 255. -/
lemma kMeans1x1 (r g b a : ℕ) (rng : ℕ → ℚ) (hrng : ∀ i, 0 ≤ rng i ∧ rng i < 1) :
    kMeansQuantize [r, g, b, a] 1 1 5 10 rng =
      (List.replicate 5 (r, g, b), [r, g, b, 255]) := by
  have hsmp : sampleIdxs (List.length [r, g, b, a]) 4 = [0] := by
    unfold sampleIdxs
    norm_num
  have hex : extractPixels [r, g, b, a] = [(r, g, b)] := by
    unfold extractPixels
    rw [hsmp]
    rfl
  have hfl : ∀ c, Nat.floor (rng c * (([((r : ℕ), (g : ℕ), (b : ℕ))] : List Color).length : ℚ)) =
      0 := by
    intro c
    rw [show ((([((r : ℕ), (g : ℕ), (b : ℕ))] : List Color).length : ℕ) : ℚ) = 1 by norm_num,
      mul_one]
    exact Nat.floor_eq_zero.2 (hrng c).2
  have ht : ∀ (c : ℕ) (tl : List Color),
      rng c * (((([((r : ℕ), (g : ℕ), (b : ℕ))] : List Color).map
        fun p => minDistSq p ((r, g, b) :: tl)).sum : ℕ) : ℚ) = 0 := by
    intro c tl
    rw [show (([((r : ℕ), (g : ℕ), (b : ℕ))] : List Color).map
        fun p => minDistSq p ((r, g, b) :: tl)) =
      [minDistSq (r, g, b) ((r, g, b) :: tl)] from rfl, minDistSq_head_self]
    norm_num
  have hinit : initializeCentroidsKMeansPlusPlus [(r, g, b)] 5 rng =
      ([(r, g, b), (r, g, b), (r, g, b), (r, g, b), (r, g, b)], 5) := by
    unfold initializeCentroidsKMeansPlusPlus
    rw [hfl 0]
    show initGo [(r, g, b)] rng 4 1 [(r, g, b)] =
      ([(r, g, b), (r, g, b), (r, g, b), (r, g, b), (r, g, b)], 5)
    have h1 : initGo [(r, g, b)] rng 4 1 [(r, g, b)] =
        initGo [(r, g, b)] rng 3 2 [(r, g, b), (r, g, b)] :=
      initGo_pick0 [(r, g, b)] rng 3 1 [(r, g, b)] (r, g, b) [] rfl (ht 1 [])
    have h2 : initGo [(r, g, b)] rng 3 2 [(r, g, b), (r, g, b)] =
        initGo [(r, g, b)] rng 2 3 [(r, g, b), (r, g, b), (r, g, b)] :=
      initGo_pick0 [(r, g, b)] rng 2 2 [(r, g, b), (r, g, b)] (r, g, b) [] rfl
        (ht 2 [(r, g, b)])
    have h3 : initGo [(r, g, b)] rng 2 3 [(r, g, b), (r, g, b), (r, g, b)] =
        initGo [(r, g, b)] rng 1 4 [(r, g, b), (r, g, b), (r, g, b), (r, g, b)] :=
      initGo_pick0 [(r, g, b)] rng 1 3 [(r, g, b), (r, g, b), (r, g, b)] (r, g, b) [] rfl
        (ht 3 [(r, g, b), (r, g, b)])
    have h4 : initGo [(r, g, b)] rng 1 4 [(r, g, b), (r, g, b), (r, g, b), (r, g, b)] =
        initGo [(r, g, b)] rng 0 5 [(r, g, b), (r, g, b), (r, g, b), (r, g, b), (r, g, b)] :=
      initGo_pick0 [(r, g, b)] rng 0 4 [(r, g, b), (r, g, b), (r, g, b), (r, g, b)] (r, g, b)
        [] rfl (ht 4 [(r, g, b), (r, g, b), (r, g, b)])
    rw [h1, h2, h3, h4, initGo_zero]
  have hfc : findClosestCentroid (r, g, b)
      [(r, g, b), (r, g, b), (r, g, b), (r, g, b), (r, g, b)] = 0 := by
    unfold findClosestCentroid
    exact argminIdx_zero_head _ _ _ (sqDist_self _)
  have hA : ([((r : ℕ), (g : ℕ), (b : ℕ))] : List Color).map (fun p => findClosestCentroid p
      [(r, g, b), (r, g, b), (r, g, b), (r, g, b), (r, g, b)]) = List.replicate 1 0 := by
    simp only [List.map_cons, List.map_nil]
    rw [hfc]
    rfl
  have hupdk : updateCentroids [(r, g, b)] (List.replicate 1 0) 5 rng 5 =
      ([(r, g, b), (r, g, b), (r, g, b), (r, g, b), (r, g, b)], 9) := by
    rw [updateCentroids_five]
    have hu0 : updStep [(r, g, b)] (List.replicate 1 0) rng ([], 5) 0 = ([(r, g, b)], 5) :=
      updStep_single [(r, g, b)] (List.replicate 1 0) rng ([], 5) 0 (r, g, b) rfl
    have hu1 : updStep [(r, g, b)] (List.replicate 1 0) rng ([(r, g, b)], 5) 1 =
        ([(r, g, b), (r, g, b)], 6) :=
      updStep_empty [(r, g, b)] (List.replicate 1 0) rng ([(r, g, b)], 5) 1 0 rfl (hfl 5)
    have hu2 : updStep [(r, g, b)] (List.replicate 1 0) rng ([(r, g, b), (r, g, b)], 6) 2 =
        ([(r, g, b), (r, g, b), (r, g, b)], 7) :=
      updStep_empty [(r, g, b)] (List.replicate 1 0) rng ([(r, g, b), (r, g, b)], 6) 2 0 rfl
        (hfl 6)
    have hu3 : updStep [(r, g, b)] (List.replicate 1 0) rng
        ([(r, g, b), (r, g, b), (r, g, b)], 7) 3 =
        ([(r, g, b), (r, g, b), (r, g, b), (r, g, b)], 8) :=
      updStep_empty [(r, g, b)] (List.replicate 1 0) rng
        ([(r, g, b), (r, g, b), (r, g, b)], 7) 3 0 rfl (hfl 7)
    have hu4 : updStep [(r, g, b)] (List.replicate 1 0) rng
        ([(r, g, b), (r, g, b), (r, g, b), (r, g, b)], 8) 4 =
        ([(r, g, b), (r, g, b), (r, g, b), (r, g, b), (r, g, b)], 9) :=
      updStep_empty [(r, g, b)] (List.replicate 1 0) rng
        ([(r, g, b), (r, g, b), (r, g, b), (r, g, b)], 8) 4 0 rfl (hfl 8)
    rw [hu0, hu1, hu2, hu3, hu4]
  have hlr : lloydResult [(r, g, b)] 5 10 rng =
      (List.replicate 1 0, [(r, g, b), (r, g, b), (r, g, b), (r, g, b), (r, g, b)], 9) := by
    unfold lloydResult
    rw [hinit, fstPair, sndPair,
      show ([((r : ℕ), (g : ℕ), (b : ℕ))] : List Color).length = 1 from rfl]
    rw [show lloydGo [(r, g, b)] 5 rng 10 (List.replicate 1 0)
        [(r, g, b), (r, g, b), (r, g, b), (r, g, b), (r, g, b)] 5 =
        (List.replicate 1 0,
          (updateCentroids [(r, g, b)] (List.replicate 1 0) 5 rng 5).1 ++
            ([(r, g, b), (r, g, b), (r, g, b), (r, g, b), (r, g, b)] : List Color).drop 5,
          (updateCentroids [(r, g, b)] (List.replicate 1 0) 5 rng 5).2) from
      lloydGo_exit [(r, g, b)] 5 rng 9 (List.replicate 1 0)
        [(r, g, b), (r, g, b), (r, g, b), (r, g, b), (r, g, b)] 5 hA]
    rw [hupdk, fstPair, sndPair,
      show ([(r, g, b), (r, g, b), (r, g, b), (r, g, b), (r, g, b)] : List Color).drop 5 = []
        from rfl, List.append_nil]
  unfold kMeansQuantize
  rw [hex, hlr]
  simp only [fstPair, sndPair]
  rw [show ([((r : ℕ), (g : ℕ), (b : ℕ))] : List Color).length = 1 from rfl]
  rw [show kMeansOut [(r, g, b), (r, g, b), (r, g, b), (r, g, b), (r, g, b)]
      (List.replicate 1 0) 1 = [r, g, b, 255] from rfl]
  rfl

/-- C6 counterexample: the 1-by-1 image with pixel (10,20,30) at k = 5. The
exact quantizer returns a palette of length 5 (5 copies of the pixel color),
not 1; the fast quantizer returns a palette of length 2 whose entries are the
bin-center color (12,20,28), not the pixel color, and its output buffer is the
bin-center pixel, not the input with alpha forced. -/
theorem C6_counterexample :
    (kMeansQuantize [10, 20, 30, 255] 1 1 5 10 rngHalf).1.length = 5 ∧
      (quantizeImportantColors [10, 20, 30, 255] 1 1 5 rngHalf).1 =
        [(12, 20, 28), (12, 20, 28)] ∧
      (quantizeImportantColors [10, 20, 30, 255] 1 1 5 rngHalf).1.length = 2 ∧
      ((12 : ℕ), (20 : ℕ), (28 : ℕ)) ≠ ((10 : ℕ), (20 : ℕ), (30 : ℕ)) ∧
      (quantizeImportantColors [10, 20, 30, 255] 1 1 5 rngHalf).2 = [12, 20, 28, 255] ∧
      (quantizeImportantColors [10, 20, 30, 255] 1 1 5 rngHalf).2 ≠ [10, 20, 30, 255] := by
  have hk := kMeans1x1 10 20 30 255 rngHalf rngHalf_valid
  have hf := fast1x1 10 20 30 255 (by omega) (by omega) (by omega) rngHalf rngHalf_valid
  refine ⟨?_, ?_, ?_, by decide, ?_, ?_⟩
  · rw [hk, fstPair]
    decide
  · rw [hf, fstPair]
  · rw [hf, fstPair]
    decide
  · rw [hf, sndPair]
  · rw [hf, sndPair]
    decide

/-- C6 amended: on a 1-by-1 image with k = 5 neither quantizer returns a
single-entry palette. The exact mode returns 5 copies of the pixel color (so
each entry equals the pixel color and the output buffer is the input with
alpha forced to 255, but the length is 5, not 1); the fast mode returns 2
copies of the pixel's 5-bit bin-center color (r/8*8+4, g/8*8+4, b/8*8+4), and
its output buffer holds that bin-center color with alpha 255 rather than the
input pixel. -/
theorem C6_1x1 (r g b a : ℕ) (hr : r ≤ 255) (hg : g ≤ 255) (hb : b ≤ 255)
    (rng : ℕ → ℚ) (hrng : ∀ i, 0 ≤ rng i ∧ rng i < 1) :
    kMeansQuantize [r, g, b, a] 1 1 5 10 rng =
      (List.replicate 5 (r, g, b), [r, g, b, 255]) ∧
    quantizeImportantColors [r, g, b, a] 1 1 5 rng =
      ([(r / 8 * 8 + 4, g / 8 * 8 + 4, b / 8 * 8 + 4),
        (r / 8 * 8 + 4, g / 8 * 8 + 4, b / 8 * 8 + 4)],
       [r / 8 * 8 + 4, g / 8 * 8 + 4, b / 8 * 8 + 4, 255]) :=
  ⟨kMeans1x1 r g b a rng hrng, fast1x1 r g b a hr hg hb rng hrng⟩

/-- Witness for C6's amended statement at the pixel (40,80,120). -/
theorem C6_1x1_witness :
    kMeansQuantize [40, 80, 120, 255] 1 1 5 10 rngHalf =
      (List.replicate 5 (40, 80, 120), [40, 80, 120, 255]) ∧
    quantizeImportantColors [40, 80, 120, 255] 1 1 5 rngHalf =
      ([(40 / 8 * 8 + 4, 80 / 8 * 8 + 4, 120 / 8 * 8 + 4),
        (40 / 8 * 8 + 4, 80 / 8 * 8 + 4, 120 / 8 * 8 + 4)],
       [40 / 8 * 8 + 4, 80 / 8 * 8 + 4, 120 / 8 * 8 + 4, 255]) :=
  C6_1x1 40 80 120 255 (by decide) (by decide) (by decide) rngHalf rngHalf_valid

end TP
